import Mathlib

/-! Transactional outbox: a shallow embedding.

The Go packages `models`, `repository`, `service` and `publisher` of
`transactional_outbox` are embedded as pure functions over an explicit store
state.  The relational store is a pair of tables (lists of rows, in insertion
order); a transaction carries a working copy of the tables that becomes the
committed copy on `Commit`.  Every call that can fail in Go (a `database/sql`
call, a broker publish) takes the error the driver returns for it, if any, as
an argument, so that theorems quantify over all outcomes.

Conventions:
* calls run one after the other (one connection at a time); a failed `Commit`
  commits nothing;
* the store records the calls it receives (`DB.calls`), so that "no transaction
  was begun" is a statement about the state;
* `json.Marshal` and `time.Time.Format` are parameters (`Env`);
* `float64` keeps what comparison needs: NaN, the infinities, finite values;
* the batch query orders by `created_at` only: the order of rows with equal
  `created_at` is a decision of the store in each query (`QueryFaults.tie`),
  and every order sorted by `created_at` is possible (`sqlUnprocessed_any_order`);
* a store state satisfies the primary keys (`Tables.WF`); the service and the
  relay preserve them (`createOrder_wf`, `confirmOrder_wf`,
  `processMessages_dbwf`).

The circuit breaker of `stability/circuit_breaker` is embedded in the namespace
`Stability`: the clock readings and the function under protection are arguments
of `Call`.
-/

namespace Outbox

deriving instance DecidableEq for Except

/-! ## Errors (`models/errors.go`) -/

/-- Go `error` values: the sentinels of `models/errors.go`, the sentinel
`sql.ErrNoRows`, errors raised by a driver or library (`external`), and
`fmt.Errorf("msg: %w", inner)` wrappers. -/
inductive Error where
  | ErrOrderNotFound
  | ErrInvalidCustomerID
  | ErrInvalidProductName
  | ErrInvalidQuantity
  | ErrInvalidPrice
  | ErrOutboxMessageNotFound
  | ErrAlreadyProcessed
  | sqlErrNoRows
  | external (msg : String)
  | wrapped (msg : String) (inner : Error)
deriving DecidableEq, Repr

/-- Go `errors.Is(e, target)`: `e` or an error it wraps equals `target`. -/
def Error.Is : Error → Error → Bool
  | .wrapped msg inner, target =>
      decide (Error.wrapped msg inner = target) || Error.Is inner target
  | e, target => decide (e = target)

/-! ## Numbers, time, bytes -/

/-- Go `float64`, as far as comparison is concerned: not-a-number, the two
infinities, or a finite value (every finite binary64 value is a rational). -/
inductive Float64 where
  | nan
  | negInf
  | posInf
  | finite (q : ℚ)
deriving DecidableEq

/-- Go `a <= b` on `float64` (IEEE 754: false as soon as an operand is NaN). -/
def Float64.le : Float64 → Float64 → Bool
  | .nan, _ => false
  | _, .nan => false
  | .negInf, _ => true
  | _, .posInf => true
  | .posInf, _ => false
  | .finite _, .negInf => false
  | .finite a, .finite b => decide (a ≤ b)

/-- Go `a > b` on `float64` (IEEE 754: false as soon as an operand is NaN). -/
def Float64.gt : Float64 → Float64 → Bool
  | .nan, _ => false
  | _, .nan => false
  | .negInf, _ => false
  | .posInf, .posInf => false
  | .posInf, _ => true
  | .finite _, .posInf => false
  | .finite _, .negInf => true
  | .finite a, .finite b => decide (b < a)

/-- The `float64` constant `0`. -/
def Float64.zero : Float64 := .finite 0

/-- Go `!math.IsNaN(a) && !math.IsInf(a, 0)`. -/
def Float64.isFinite : Float64 → Bool
  | .finite _ => true
  | _ => false

/-- Go `time.Time`, as an instant on a discrete time line. -/
abbrev Time := Nat

/-- Go `[]byte` / `json.RawMessage`. -/
abbrev Bytes := List Nat

/-- Go `strconv.FormatInt(i, 10)`. -/
def FormatInt (i : Int) : String :=
  if i < 0 then "-" ++ Nat.repr i.natAbs else Nat.repr i.natAbs

/-! ## Models (`models/order.go`, `models/outbox.go`) -/

structure Order where
  ID : Int
  CustomerID : String
  ProductName : String
  Quantity : Int
  TotalPrice : Float64
  Status : String
  CreatedAt : Time
  UpdatedAt : Time
deriving DecidableEq

def OrderStatusPending : String := "PENDING"

def OrderStatusConfirmed : String := "CONFIRMED"

structure CreateOrderRequest where
  CustomerID : String
  ProductName : String
  Quantity : Int
  TotalPrice : Float64
deriving DecidableEq

/-- The method `(*CreateOrderRequest).Validate`; `.ok ()` is Go's `nil`. -/
def CreateOrderRequest.Validate (r : CreateOrderRequest) : Except Error Unit :=
  if r.CustomerID = "" then .error .ErrInvalidCustomerID
  else if r.ProductName = "" then .error .ErrInvalidProductName
  else if r.Quantity ≤ 0 then .error .ErrInvalidQuantity
  else if r.TotalPrice.le Float64.zero then .error .ErrInvalidPrice
  else .ok ()

structure OutboxMessage where
  ID : Int
  AggregateType : String
  AggregateID : String
  EventType : String
  Payload : Bytes
  CreatedAt : Time
  ProcessedAt : Option Time
  Processed : Bool
deriving DecidableEq

def EventTypeOrderCreated : String := "OrderCreated"

def EventTypeOrderConfirmed : String := "OrderConfirmed"

def AggregateTypeOrder : String := "Order"

structure OrderCreatedEvent where
  OrderID : Int
  CustomerID : String
  ProductName : String
  Quantity : Int
  TotalPrice : Float64
  Status : String
  CreatedAt : String
deriving DecidableEq

structure OrderConfirmedEvent where
  OrderID : Int
  CustomerID : String
  ConfirmedAt : String
deriving DecidableEq

/-- The values passed as `payload interface{}` to `NewOutboxMessage`. -/
inductive Event where
  | orderCreated (e : OrderCreatedEvent)
  | orderConfirmed (e : OrderConfirmedEvent)
deriving DecidableEq

/-- Library functions the code calls and this development does not look into:
`json.Marshal` on an event and `time.Time.Format` with the RFC 3339 layout. -/
structure Env where
  jsonMarshal : Event → Except Error Bytes
  formatTime : Time → String

/-- The constructor `NewOutboxMessage`: marshals the payload; `ID`, `CreatedAt`
and `ProcessedAt` keep Go's zero values. -/
def NewOutboxMessage (env : Env) (aggregateType aggregateID eventType : String)
    (payload : Event) : Except Error OutboxMessage :=
  match env.jsonMarshal payload with
  | .error err => .error err
  | .ok payloadJSON =>
    .ok { ID := 0, AggregateType := aggregateType, AggregateID := aggregateID,
          EventType := eventType, Payload := payloadJSON, CreatedAt := 0,
          ProcessedAt := none, Processed := false }

/-! ## The store: tables, transactions and the SQL statements of the repositories -/

/-- The two tables of the store, rows in insertion order. -/
structure Tables where
  orders : List Order
  outbox : List OutboxMessage
deriving DecidableEq

/-- The calls made on `database/sql` handles, as they appear in the code. -/
inductive Call where
  | begin
  | commit
  | rollback
  | insertOrder
  | selectOrder
  | updateOrderStatus
  | insertOutbox
  | selectUnprocessed
  | markAsProcessed
deriving DecidableEq, Repr

/-- The state behind a `*sql.DB`: the committed tables, the identity sequences
of the two tables (the last value handed out; sequences are not rolled back),
and the log of calls received so far, oldest first. -/
structure DB where
  committed : Tables
  orderSeq : Int
  outboxSeq : Int
  calls : List Call
deriving DecidableEq

/-- The state behind a `*sql.Tx`: the working copy of the tables and the
transaction's `CURRENT_TIMESTAMP`. -/
structure Tx where
  work : Tables
  now : Time
deriving DecidableEq

/-- The driver errors of `Exec` followed by `Result.RowsAffected`. -/
structure ExecFaults where
  exec : Option Error
  rowsAffected : Option Error

/-- What the store decides in one `Query`: the driver errors of `Query`,
`Rows.Scan` and `Rows.Err`, and the order of rows with equal `created_at`, which
`ORDER BY created_at ASC` leaves open: the store returns such rows by
ascending rank `tie`, rows of equal rank in insertion order. -/
structure QueryFaults where
  query : Option Error
  scan : Option Error
  rowsErr : Option Error
  tie : OutboxMessage → Nat

/-- No driver error. -/
def ExecFaults.none : ExecFaults := { exec := Option.none, rowsAffected := Option.none }

/-- No driver error; rows with equal `created_at` come in insertion order. -/
def QueryFaults.none : QueryFaults :=
  { query := Option.none, scan := Option.none, rowsErr := Option.none, tie := fun _ => 0 }

/-- The query meets no driver error; the order of rows with equal `created_at`
is any. -/
def QueryFaults.succeeds (q : QueryFaults) : Prop :=
  q.query = Option.none ∧ q.scan = Option.none ∧ q.rowsErr = Option.none

instance (q : QueryFaults) : Decidable q.succeeds := by
  unfold QueryFaults.succeeds; infer_instance

/-- The call `(*sql.DB).Begin`: the new transaction works on a copy of the
committed tables. -/
def DB.Begin (fault : Option Error) (now : Time) (db : DB) : Except Error Tx × DB :=
  let db1 := { db with calls := db.calls ++ [Call.begin] }
  match fault with
  | some err => (.error err, db1)
  | none => (.ok { work := db.committed, now := now }, db1)

/-- The call `(*sql.Tx).Commit`: on success the working copy becomes the
committed tables; on error nothing is committed. -/
def Tx.Commit (fault : Option Error) (db : DB) (tx : Tx) : Except Error Unit × DB :=
  let db1 := { db with calls := db.calls ++ [Call.commit] }
  match fault with
  | some err => (.error err, db1)
  | none => (.ok (), { db1 with committed := tx.work })

/-- The call `(*sql.Tx).Rollback`: the working copy is dropped.  Its error is
only logged by the callers, and after a `Commit` it has no effect. -/
def Tx.Rollback (db : DB) (_tx : Tx) : DB :=
  { db with calls := db.calls ++ [Call.rollback] }

/-- Modelled from the spec: the table definitions are not part of the sources.
`INSERT INTO orders (customer_id, product_name, quantity, total_price, status)
... RETURNING ...`: the store assigns the next identity and sets both
timestamps to the transaction's time. -/
def sqlInsertOrder (t : Tables) (id : Int) (now : Time) (customerID productName : String)
    (quantity : Int) (totalPrice : Float64) (status : String) : Tables × Order :=
  let row : Order :=
    { ID := id, CustomerID := customerID, ProductName := productName, Quantity := quantity,
      TotalPrice := totalPrice, Status := status, CreatedAt := now, UpdatedAt := now }
  ({ t with orders := t.orders ++ [row] }, row)

/-- The statement `SELECT ... FROM orders WHERE id = $1`, first row. -/
def sqlSelectOrder (t : Tables) (id : Int) : Option Order :=
  t.orders.find? (fun o => decide (o.ID = id))

/-- The statement `UPDATE orders SET status = $1, updated_at = CURRENT_TIMESTAMP
WHERE id = $2`, with the number of rows affected. -/
def sqlUpdateOrderStatus (t : Tables) (now : Time) (status : String) (id : Int) : Tables × Nat :=
  ({ t with orders := t.orders.map (fun o =>
      if o.ID = id then { o with Status := status, UpdatedAt := now } else o) },
   (t.orders.filter (fun o => decide (o.ID = id))).length)

/-- Modelled from the spec: the table definitions are not part of the sources.
`INSERT INTO outbox (aggregate_type, aggregate_id, event_type, payload,
processed) ... RETURNING id, created_at`: the store assigns the next identity,
sets `created_at` to the transaction's time and leaves `processed_at` null. -/
def sqlInsertOutbox (t : Tables) (id : Int) (now : Time) (aggregateType aggregateID
    eventType : String) (payload : Bytes) (processed : Bool) : Tables × OutboxMessage :=
  let row : OutboxMessage :=
    { ID := id, AggregateType := aggregateType, AggregateID := aggregateID,
      EventType := eventType, Payload := payload, CreatedAt := now, ProcessedAt := none,
      Processed := processed }
  ({ t with outbox := t.outbox ++ [row] }, row)

/-- The order `ORDER BY created_at ASC`. -/
def createdBefore (a b : OutboxMessage) : Prop := a.CreatedAt ≤ b.CreatedAt

instance : DecidableRel createdBefore := fun a b => Nat.decLe a.CreatedAt b.CreatedAt

/-- The order in which one query returns rows: by `created_at`, and among rows
with equal `created_at` by the rank `tie` the store gives them in this query. -/
def returnedBefore (tie : OutboxMessage → Nat) (a b : OutboxMessage) : Prop :=
  a.CreatedAt < b.CreatedAt ∨ (a.CreatedAt = b.CreatedAt ∧ tie a ≤ tie b)

instance (tie : OutboxMessage → Nat) : DecidableRel (returnedBefore tie) := fun a b => by
  unfold returnedBefore; infer_instance

/-- The rows of `SELECT ... FROM outbox WHERE processed = false ORDER BY
created_at ASC`, before the `LIMIT`.  SQL leaves the order of rows with equal
`created_at` open: it is given by `tie`, which may differ from one query to
the next. -/
def sqlUnprocessed (tie : OutboxMessage → Nat) (t : Tables) : List OutboxMessage :=
  (t.outbox.filter (fun m => !m.Processed)).insertionSort (returnedBefore tie)

/-- The statement `UPDATE outbox SET processed = true, processed_at = $1
WHERE id = $2 AND processed = false`, with the number of rows affected. -/
def sqlMarkProcessed (t : Tables) (now : Time) (id : Int) : Tables × Nat :=
  ({ t with outbox := t.outbox.map (fun m =>
      if m.ID = id ∧ m.Processed = false then
        { m with Processed := true, ProcessedAt := some now }
      else m) },
   (t.outbox.filter (fun m => decide (m.ID = id ∧ m.Processed = false))).length)

/-! ## Repositories (`repository/order_repository.go`, `repository/outbox_repository.go`) -/

/-- The method `orderRepository.Create`. -/
def orderRepository.Create (fault : Option Error) (db : DB) (tx : Tx)
    (req : CreateOrderRequest) : Except Error Order × DB × Tx :=
  let db1 := { db with calls := db.calls ++ [Call.insertOrder] }
  match fault with
  | some err => (.error (.wrapped "failed to create order" err), db1, tx)
  | none =>
    let r := sqlInsertOrder tx.work (db.orderSeq + 1) tx.now req.CustomerID req.ProductName
      req.Quantity req.TotalPrice OrderStatusPending
    (.ok r.2, { db1 with orderSeq := db.orderSeq + 1 }, { tx with work := r.1 })

/-- The method `orderRepository.GetByID`: a read of the committed tables,
outside any transaction. -/
def orderRepository.GetByID (fault : Option Error) (db : DB) (id : Int) :
    Except Error Order × DB :=
  let db1 := { db with calls := db.calls ++ [Call.selectOrder] }
  let scanned : Except Error Order :=
    match fault with
    | some err => .error err
    | none =>
      match sqlSelectOrder db.committed id with
      | none => .error .sqlErrNoRows
      | some o => .ok o
  match scanned with
  | .error err =>
    if err = .sqlErrNoRows then (.error .ErrOrderNotFound, db1)
    else (.error (.wrapped "failed to get order" err), db1)
  | .ok o => (.ok o, db1)

/-- The method `orderRepository.UpdateStatus`. -/
def orderRepository.UpdateStatus (f : ExecFaults) (db : DB) (tx : Tx) (orderID : Int)
    (status : String) : Except Error Unit × DB × Tx :=
  let db1 := { db with calls := db.calls ++ [Call.updateOrderStatus] }
  match f.exec with
  | some err => (.error (.wrapped "failed to update order status" err), db1, tx)
  | none =>
    let r := sqlUpdateOrderStatus tx.work tx.now status orderID
    let tx1 := { tx with work := r.1 }
    match f.rowsAffected with
    | some err => (.error (.wrapped "failed to get rows affected" err), db1, tx1)
    | none =>
      if r.2 = 0 then (.error .ErrOrderNotFound, db1, tx1)
      else (.ok (), db1, tx1)

/-- The method `outboxRepository.Create`; the message comes back with the `ID`
and `CreatedAt` the store assigned. -/
def outboxRepository.Create (fault : Option Error) (db : DB) (tx : Tx)
    (message : OutboxMessage) : Except Error OutboxMessage × DB × Tx :=
  let db1 := { db with calls := db.calls ++ [Call.insertOutbox] }
  match fault with
  | some err => (.error (.wrapped "failed to create outbox message" err), db1, tx)
  | none =>
    let r := sqlInsertOutbox tx.work (db.outboxSeq + 1) tx.now message.AggregateType
      message.AggregateID message.EventType message.Payload message.Processed
    (.ok { message with ID := r.2.ID, CreatedAt := r.2.CreatedAt },
     { db1 with outboxSeq := db.outboxSeq + 1 }, { tx with work := r.1 })

/-- The method `outboxRepository.GetUnprocessed`: a read of the committed
tables.  A negative `LIMIT` is an error of the store. -/
def outboxRepository.GetUnprocessed (f : QueryFaults) (db : DB) (limit : Int) :
    Except Error (List OutboxMessage) × DB :=
  let db1 := { db with calls := db.calls ++ [Call.selectUnprocessed] }
  match f.query with
  | some err => (.error (.wrapped "failed to get unprocessed messages" err), db1)
  | none =>
    if limit < 0 then
      (.error (.wrapped "failed to get unprocessed messages"
        (.external "LIMIT must not be negative")), db1)
    else
      let rows := (sqlUnprocessed f.tie db.committed).take limit.toNat
      match f.scan, rows with
      | some err, _ :: _ => (.error (.wrapped "failed to scan outbox message" err), db1)
      | _, _ =>
        match f.rowsErr with
        | some err => (.error (.wrapped "rows iteration error" err), db1)
        | none => (.ok rows, db1)

/-- The method `outboxRepository.MarkAsProcessed`; `now` is Go's `time.Now()`. -/
def outboxRepository.MarkAsProcessed (f : ExecFaults) (now : Time) (db : DB) (tx : Tx)
    (id : Int) : Except Error Unit × DB × Tx :=
  let db1 := { db with calls := db.calls ++ [Call.markAsProcessed] }
  match f.exec with
  | some err => (.error (.wrapped "failed to mark message as processed" err), db1, tx)
  | none =>
    let r := sqlMarkProcessed tx.work now id
    let tx1 := { tx with work := r.1 }
    match f.rowsAffected with
    | some err => (.error (.wrapped "failed to get rows affected" err), db1, tx1)
    | none =>
      if r.2 = 0 then (.error .ErrAlreadyProcessed, db1, tx1)
      else (.ok (), db1, tx1)

/-! ## Order service (`service/order_service.go`) -/

/-- The driver errors met by one `CreateOrder` call, one field per store call. -/
structure CreateOrderFaults where
  begin : Option Error
  insertOrder : Option Error
  insertOutbox : Option Error
  commit : Option Error

/-- The driver errors met by one `ConfirmOrder` call, one field per store call. -/
structure ConfirmOrderFaults where
  begin : Option Error
  getByID : Option Error
  update : ExecFaults
  insertOutbox : Option Error
  commit : Option Error

/-- No driver error. -/
def CreateOrderFaults.none : CreateOrderFaults :=
  { begin := Option.none, insertOrder := Option.none, insertOutbox := Option.none,
    commit := Option.none }

/-- No driver error. -/
def ConfirmOrderFaults.none : ConfirmOrderFaults :=
  { begin := Option.none, getByID := Option.none, update := ExecFaults.none,
    insertOutbox := Option.none, commit := Option.none }

/-- The method `OrderService.CreateOrder`.  The deferred function rolls the
transaction back on every return with `err != nil` after `Begin` succeeded. -/
def OrderService.CreateOrder (env : Env) (f : CreateOrderFaults) (now : Time) (db : DB)
    (req : CreateOrderRequest) : Except Error Order × DB :=
  match req.Validate with
  | .error err => (.error (.wrapped "validation failed" err), db)
  | .ok _ =>
    match DB.Begin f.begin now db with
    | (.error err, db1) => (.error (.wrapped "failed to begin transaction" err), db1)
    | (.ok tx, db1) =>
      match orderRepository.Create f.insertOrder db1 tx req with
      | (.error err, db2, tx2) =>
        (.error (.wrapped "failed to create order" err), Tx.Rollback db2 tx2)
      | (.ok order, db2, tx2) =>
        let event : OrderCreatedEvent :=
          { OrderID := order.ID, CustomerID := order.CustomerID,
            ProductName := order.ProductName, Quantity := order.Quantity,
            TotalPrice := order.TotalPrice, Status := order.Status,
            CreatedAt := env.formatTime order.CreatedAt }
        match NewOutboxMessage env AggregateTypeOrder (FormatInt order.ID)
            EventTypeOrderCreated (.orderCreated event) with
        | .error err =>
          (.error (.wrapped "failed to create outbox message" err), Tx.Rollback db2 tx2)
        | .ok outboxMsg =>
          match outboxRepository.Create f.insertOutbox db2 tx2 outboxMsg with
          | (.error err, db3, tx3) =>
            (.error (.wrapped "failed to save outbox message" err), Tx.Rollback db3 tx3)
          | (.ok _, db3, tx3) =>
            match Tx.Commit f.commit db3 tx3 with
            | (.error err, db4) =>
              (.error (.wrapped "failed to commit transaction" err), Tx.Rollback db4 tx3)
            | (.ok _, db4) => (.ok order, db4)

/-- The method `OrderService.ConfirmOrder`.  The transaction is begun first;
the order is then read outside it. -/
def OrderService.ConfirmOrder (env : Env) (f : ConfirmOrderFaults) (now : Time) (db : DB)
    (orderID : Int) : Except Error Unit × DB :=
  match DB.Begin f.begin now db with
  | (.error err, db1) => (.error (.wrapped "failed to begin transaction" err), db1)
  | (.ok tx, db1) =>
    match orderRepository.GetByID f.getByID db1 orderID with
    | (.error err, db2) => (.error (.wrapped "failed to get order" err), Tx.Rollback db2 tx)
    | (.ok order, db2) =>
      match orderRepository.UpdateStatus f.update db2 tx orderID OrderStatusConfirmed with
      | (.error err, db3, tx3) =>
        (.error (.wrapped "failed to update order status" err), Tx.Rollback db3 tx3)
      | (.ok _, db3, tx3) =>
        let event : OrderConfirmedEvent :=
          { OrderID := orderID, CustomerID := order.CustomerID,
            ConfirmedAt := env.formatTime order.UpdatedAt }
        match NewOutboxMessage env AggregateTypeOrder (FormatInt orderID)
            EventTypeOrderConfirmed (.orderConfirmed event) with
        | .error err =>
          (.error (.wrapped "failed to create outbox message" err), Tx.Rollback db3 tx3)
        | .ok outboxMsg =>
          match outboxRepository.Create f.insertOutbox db3 tx3 outboxMsg with
          | (.error err, db4, tx4) =>
            (.error (.wrapped "failed to save outbox message" err), Tx.Rollback db4 tx4)
          | (.ok _, db4, tx4) =>
            match Tx.Commit f.commit db4 tx4 with
            | (.error err, db5) =>
              (.error (.wrapped "failed to commit transaction" err), Tx.Rollback db5 tx4)
            | (.ok _, db5) => (.ok (), db5)

/-! ## Publisher and relay (`publisher/kafka_publisher.go`, `publisher/outbox_processor.go`) -/

/-- One `SendMessage` call received by the broker: key, value, and whether the
call was acknowledged. -/
structure PublishCall where
  key : String
  value : Bytes
  acked : Bool
deriving DecidableEq

/-- The message sink: the calls it received, oldest first. -/
structure Sink where
  log : List PublishCall
deriving DecidableEq

/-- The method `KafkaPublisher.Publish`; `fault` is the error of `SendMessage`. -/
def KafkaPublisher.Publish (fault : Option Error) (sink : Sink) (key : String)
    (message : Bytes) : Except Error Unit × Sink :=
  match fault with
  | some err =>
    (.error (.wrapped "failed to publish message to Kafka" err),
     { log := sink.log ++ [{ key := key, value := message, acked := false }] })
  | none => (.ok (), { log := sink.log ++ [{ key := key, value := message, acked := true }] })

/-- The store and the sink the relay works on. -/
structure World where
  db : DB
  sink : Sink
deriving DecidableEq

/-- The configuration fields of `OutboxProcessor` (the handles are the world). -/
structure OutboxProcessor where
  pollInterval : Nat
  batchSize : Int

/-- The errors met while processing one message, one field per call. -/
structure ProcessFaults where
  publish : Option Error
  begin : Option Error
  mark : ExecFaults
  commit : Option Error

/-- No error. -/
def ProcessFaults.none : ProcessFaults :=
  { publish := Option.none, begin := Option.none, mark := ExecFaults.none,
    commit := Option.none }

/-- The errors met in one poll cycle: those of the batch query and, for each
message id, those of processing that message. -/
structure CycleFaults where
  fetch : QueryFaults
  msg : Int → ProcessFaults

/-- No error. -/
def CycleFaults.none : CycleFaults :=
  { fetch := QueryFaults.none, msg := fun _ => ProcessFaults.none }

/-- The cycle meets no error: the query succeeds, in whatever order it returns
rows of equal `created_at`, and so does every call made for a message. -/
def CycleFaults.succeeds (f : CycleFaults) : Prop :=
  f.fetch.succeeds ∧ ∀ id : Int, f.msg id = ProcessFaults.none

/-- The key computed by `fmt.Sprintf("%s-%s", msg.AggregateType, msg.AggregateID)`. -/
def messageKey (msg : OutboxMessage) : String :=
  msg.AggregateType ++ "-" ++ msg.AggregateID

/-- The method `OutboxProcessor.processMessage`.  `defer tx.Rollback()` runs on
every return after `Begin` succeeded. -/
def OutboxProcessor.processMessage (f : ProcessFaults) (now : Time) (w : World)
    (msg : OutboxMessage) : Except Error Unit × World :=
  let key := messageKey msg
  match KafkaPublisher.Publish f.publish w.sink key msg.Payload with
  | (.error err, sink1) =>
    (.error (.wrapped "failed to publish to Kafka" err), { w with sink := sink1 })
  | (.ok _, sink1) =>
    match DB.Begin f.begin now w.db with
    | (.error err, db1) =>
      (.error (.wrapped "failed to begin transaction" err), { db := db1, sink := sink1 })
    | (.ok tx, db1) =>
      match outboxRepository.MarkAsProcessed f.mark now db1 tx msg.ID with
      | (.error err, db2, tx2) =>
        (.error (.wrapped "failed to mark as processed" err),
         { db := Tx.Rollback db2 tx2, sink := sink1 })
      | (.ok _, db2, tx2) =>
        match Tx.Commit f.commit db2 tx2 with
        | (.error err, db3) =>
          (.error (.wrapped "failed to commit transaction" err),
           { db := Tx.Rollback db3 tx2, sink := sink1 })
        | (.ok _, db3) => (.ok (), { db := Tx.Rollback db3 tx2, sink := sink1 })

/-- The loop `for _, msg := range messages` of `processMessages`: an error of
one message is logged and the loop continues. -/
def processBatch (f : CycleFaults) (now : Time) (w : World) : List OutboxMessage → World
  | [] => w
  | msg :: rest =>
    processBatch f now (OutboxProcessor.processMessage (f.msg msg.ID) now w msg).2 rest

/-- The method `OutboxProcessor.processMessages`: one poll cycle. -/
def OutboxProcessor.processMessages (p : OutboxProcessor) (f : CycleFaults) (now : Time)
    (w : World) : World :=
  match outboxRepository.GetUnprocessed f.fetch w.db p.batchSize with
  | (.error _, db1) => { w with db := db1 }
  | (.ok messages, db1) =>
    if messages.length = 0 then { w with db := db1 }
    else processBatch f now { w with db := db1 } messages

/-- Successive poll cycles of `Start`, one per element of `fs` (the errors of
that cycle and its time). -/
def runCycles (p : OutboxProcessor) (fs : List (CycleFaults × Time)) (w : World) : World :=
  fs.foldl (fun w ft => p.processMessages ft.1 ft.2 w) w

/-- The number of rows of the committed outbox with `processed = false`. -/
def unprocessedCount (db : DB) : Nat :=
  (db.committed.outbox.filter (fun m => !m.Processed)).length

/-- The primary keys: no two rows of a table share an id. -/
def Tables.WF (t : Tables) : Prop :=
  (t.orders.map (fun o => o.ID)).Nodup ∧ (t.outbox.map (fun m => m.ID)).Nodup

instance (t : Tables) : Decidable t.WF := by
  unfold Tables.WF; infer_instance

/-- A store state: primary keys hold, and no committed row carries an identity
the sequences have not handed out yet. -/
def DB.WF (db : DB) : Prop :=
  db.committed.WF ∧ (∀ o ∈ db.committed.orders, o.ID ≤ db.orderSeq) ∧
    (∀ m ∈ db.committed.outbox, m.ID ≤ db.outboxSeq)

instance (db : DB) : Decidable db.WF := by
  unfold DB.WF; infer_instance

instance : IsTrans OutboxMessage createdBefore :=
  ⟨fun _ _ _ hab hbc => Nat.le_trans hab hbc⟩

instance : IsTotal OutboxMessage createdBefore :=
  ⟨fun a b => Nat.le_total a.CreatedAt b.CreatedAt⟩

instance (tie : OutboxMessage → Nat) : IsTrans OutboxMessage (returnedBefore tie) :=
  ⟨fun a b c hab hbc => by
    rcases hab with hab | ⟨hab, hab2⟩
    · rcases hbc with hbc | ⟨hbc, _⟩
      · exact Or.inl (Nat.lt_trans hab hbc)
      · exact Or.inl (hbc ▸ hab)
    · rcases hbc with hbc | ⟨hbc, hbc2⟩
      · exact Or.inl (hab ▸ hbc)
      · exact Or.inr ⟨hab.trans hbc, Nat.le_trans hab2 hbc2⟩⟩

instance (tie : OutboxMessage → Nat) : IsTotal OutboxMessage (returnedBefore tie) :=
  ⟨fun a b => by
    rcases Nat.lt_trichotomy a.CreatedAt b.CreatedAt with h | h | h
    · exact Or.inl (Or.inl h)
    · rcases Nat.le_total (tie a) (tie b) with ht | ht
      · exact Or.inl (Or.inr ⟨h, ht⟩)
      · exact Or.inr (Or.inr ⟨h.symm, ht⟩)
    · exact Or.inr (Or.inl h)⟩

/-- The number of calls with this key and value the sink acknowledged. -/
def ackedCount (s : Sink) (key : String) (value : Bytes) : Nat :=
  (s.log.filter (fun c => decide (c.key = key ∧ c.value = value) && c.acked)).length

/-- The number of rows of the committed outbox with `processed = true` and
this key and payload. -/
def processedCount (db : DB) (key : String) (value : Bytes) : Nat :=
  (db.committed.outbox.filter
    (fun m => m.Processed && decide (messageKey m = key ∧ m.Payload = value))).length

/-- The sequence `tx := db.Begin(); repo.MarkAsProcessed(tx, id)` followed by
`tx.Commit()` on success and `tx.Rollback()` on error, on a store without
driver errors: the result of `MarkAsProcessed` and the store afterwards. -/
def markCommitted (now : Time) (db : DB) (id : Int) : Except Error Unit × DB :=
  match DB.Begin none now db with
  | (.error err, db1) => (.error err, db1)
  | (.ok tx, db1) =>
    match outboxRepository.MarkAsProcessed ExecFaults.none now db1 tx id with
    | (.error err, db2, tx2) => (.error err, Tx.Rollback db2 tx2)
    | (.ok u, db2, tx2) => (.ok u, (Tx.Commit none db2 tx2).2)

/-- The batch a poll cycle works on: the messages `GetUnprocessed` returns,
none when it returns an error. -/
def fetched (q : QueryFaults) (db : DB) (limit : Int) : List OutboxMessage :=
  match (outboxRepository.GetUnprocessed q db limit).1 with
  | .ok messages => messages
  | .error _ => []

/-! ## Sample data (the demo requests of `main.go`) -/

/-- A stand-in for the library functions: like `encoding/json`, marshalling
fails on a price that is NaN or infinite; the bytes are placeholders. -/
def sampleEnv : Env :=
  { jsonMarshal := fun e =>
      match e with
      | .orderCreated ev =>
        if ev.TotalPrice.isFinite then .ok [1]
        else .error (.external "json: unsupported value")
      | .orderConfirmed _ => .ok [2],
    formatTime := fun _ => "2024-01-01T00:00:00Z" }

def emptyDB : DB :=
  { committed := { orders := [], outbox := [] }, orderSeq := 0, outboxSeq := 0, calls := [] }

def sampleRequest : CreateOrderRequest :=
  { CustomerID := "customer-001", ProductName := "MacBook Pro", Quantity := 1,
    TotalPrice := .finite 2500 }

/-- A request whose price is not a number. -/
def nanRequest : CreateOrderRequest :=
  { CustomerID := "customer-001", ProductName := "MacBook Pro", Quantity := 1,
    TotalPrice := .nan }

/-- The store after the first demo order was created at time 5. -/
def oneOrderDB : DB :=
  (OrderService.CreateOrder sampleEnv CreateOrderFaults.none 5 emptyDB sampleRequest).2

/-- An outbox row for order `id`, created at `t`, not processed. -/
def sampleMessage (id : Int) (t : Time) : OutboxMessage :=
  { ID := id, AggregateType := "Order", AggregateID := FormatInt id,
    EventType := "OrderCreated", Payload := [1], CreatedAt := t, ProcessedAt := none,
    Processed := false }

/-- A store with three unprocessed outbox rows. -/
def threeMessagesDB : DB :=
  { committed := { orders := [],
                   outbox := [sampleMessage 1 10, sampleMessage 2 11, sampleMessage 3 12] },
    orderSeq := 3, outboxSeq := 3, calls := [] }

/-- A relay with batch size 2. -/
def sampleRelay : OutboxProcessor := { pollInterval := 2, batchSize := 2 }

/-- A cycle in which every commit of the relay fails and all else succeeds. -/
def commitFails : CycleFaults :=
  { fetch := QueryFaults.none,
    msg := fun _ => { ProcessFaults.none with commit := some (.external "connection reset") } }

/-- A message that is already marked as processed. -/
def processedMessage : OutboxMessage :=
  { sampleMessage 1 10 with Processed := true, ProcessedAt := some 20 }

/-- A repository call on the outbox, made within a transaction: `Create` with
a message built by `NewOutboxMessage`, or `MarkAsProcessed`; each with the
driver errors it meets. -/
inductive OutboxOp where
  | create (fault : Option Error) (aggregateType aggregateID eventType : String)
      (payload : Event)
  | mark (f : ExecFaults) (now : Time) (id : Int)

/-- A store together with an open transaction. -/
structure Session where
  db : DB
  tx : Tx

/-- The state after one repository call on the outbox. -/
def OutboxOp.apply (env : Env) (op : OutboxOp) (s : Session) : Session :=
  match op with
  | .create fault aggregateType aggregateID eventType payload =>
    match NewOutboxMessage env aggregateType aggregateID eventType payload with
    | .error _ => s
    | .ok message =>
      { db := (outboxRepository.Create fault s.db s.tx message).2.1,
        tx := (outboxRepository.Create fault s.db s.tx message).2.2 }
  | .mark f now id =>
    { db := (outboxRepository.MarkAsProcessed f now s.db s.tx id).2.1,
      tx := (outboxRepository.MarkAsProcessed f now s.db s.tx id).2.2 }

/-- The state after a sequence of repository calls on the outbox. -/
def runOutboxOps (env : Env) (ops : List OutboxOp) (s : Session) : Session :=
  ops.foldl (fun s op => op.apply env s) s

/-- The rows on which `processed_at` is present are exactly the processed ones. -/
def processedAtIff (rows : List OutboxMessage) : Prop :=
  ∀ m ∈ rows, (m.ProcessedAt ≠ none ↔ m.Processed = true)

/-- What a repository call may do to an existing outbox row: `Create` nothing;
`MarkAsProcessed(id)` at time `now` nothing, or, on an unprocessed row of that
id, set `processed` to true and `processed_at` to `now`. -/
def rowStep (op : OutboxOp) (row row' : OutboxMessage) : Prop :=
  match op with
  | .create _ _ _ _ _ => row' = row
  | .mark _ now id =>
    row' = row ∨
      (row.ID = id ∧ row.Processed = false ∧
        row' = { row with Processed := true, ProcessedAt := some now })

instance (rows : List OutboxMessage) : Decidable (processedAtIff rows) := by
  unfold processedAtIff; infer_instance

/-- The empty store with a transaction begun at time 5. -/
def emptySession : Session :=
  { db := emptyDB, tx := { work := emptyDB.committed, now := 5 } }

/-- An "OrderConfirmed" event for order 1. -/
def sampleConfirmedEvent : Event :=
  .orderConfirmed { OrderID := 1, CustomerID := "customer-001",
                    ConfirmedAt := "2024-01-01T00:00:00Z" }

/-- Two repository calls: the creation of a message, then its marking at time 20. -/
def sampleOutboxOps : List OutboxOp :=
  [.create none "Order" "1" "OrderConfirmed" sampleConfirmedEvent,
   .mark ExecFaults.none 20 1]

/-- A call of the order service, with the driver errors it meets. -/
inductive ServiceOp where
  | createOrder (f : CreateOrderFaults) (now : Time) (req : CreateOrderRequest)
  | confirmOrder (f : ConfirmOrderFaults) (now : Time) (orderID : Int)

/-- The store after one call of the order service. -/
def ServiceOp.apply (env : Env) (op : ServiceOp) (db : DB) : DB :=
  match op with
  | .createOrder f now req => (OrderService.CreateOrder env f now db req).2
  | .confirmOrder f now orderID => (OrderService.ConfirmOrder env f now db orderID).2

/-- The store after a sequence of calls of the order service. -/
def runServiceOps (env : Env) (ops : List ServiceOp) (db : DB) : DB :=
  ops.foldl (fun db op => op.apply env db) db

/-- Every order has a positive quantity, a positive total price and status
PENDING or CONFIRMED. -/
def orderInv (orders : List Order) : Prop :=
  ∀ o ∈ orders, 0 < o.Quantity ∧ o.TotalPrice.gt Float64.zero = true ∧
    (o.Status = "PENDING" ∨ o.Status = "CONFIRMED")

instance (orders : List Order) : Decidable (orderInv orders) := by
  unfold orderInv; infer_instance

/-- What a call may do to an existing order: identity, quantity and total
price stay, and the status stays or goes from PENDING to CONFIRMED. -/
def statusStep (o o' : Order) : Prop :=
  o'.ID = o.ID ∧ o'.Quantity = o.Quantity ∧ o'.TotalPrice = o.TotalPrice ∧
    (o'.Status = o.Status ∨ (o.Status = "PENDING" ∧ o'.Status = "CONFIRMED"))

/-- The sequence `tx := db.Begin(); orderRepo.Create(tx, req); tx.Commit()` on
a store without driver errors, as a caller of the repository other than the
order service may run it: no validation takes place. -/
def repositoryCreate (now : Time) (db : DB) (req : CreateOrderRequest) : DB :=
  match DB.Begin none now db with
  | (.error _, db1) => db1
  | (.ok tx, db1) =>
    match orderRepository.Create none db1 tx req with
    | (.error _, db2, tx2) => Tx.Rollback db2 tx2
    | (.ok _, db2, tx2) => (Tx.Commit none db2 tx2).2

/-- The sequence `tx := db.Begin(); orderRepo.UpdateStatus(tx, id, status);
tx.Commit()` on a store without driver errors. -/
def repositoryUpdateStatus (now : Time) (db : DB) (orderID : Int) (status : String) : DB :=
  match DB.Begin none now db with
  | (.error _, db1) => db1
  | (.ok tx, db1) =>
    match orderRepository.UpdateStatus ExecFaults.none db1 tx orderID status with
    | (.error _, db2, tx2) => Tx.Rollback db2 tx2
    | (.ok _, db2, tx2) => (Tx.Commit none db2 tx2).2

/-- A request with quantity 0 and price 0, which `Validate` rejects. -/
def zeroRequest : CreateOrderRequest :=
  { CustomerID := "customer-001", ProductName := "MacBook Pro", Quantity := 0,
    TotalPrice := .finite 0 }

/-- The store after order 1 was created at time 5 and confirmed at time 9. -/
def confirmedOrderDB : DB :=
  (OrderService.ConfirmOrder sampleEnv ConfirmOrderFaults.none 9 oneOrderDB 1).2

/-- The creation of the first demo order at time 5 and its confirmation at
time 9, without driver errors. -/
def sampleServiceOps : List ServiceOp :=
  [.createOrder CreateOrderFaults.none 5 sampleRequest,
   .confirmOrder ConfirmOrderFaults.none 9 1]

/-- The event `ConfirmOrder` builds from the order id and the order it has
read. -/
def confirmedEvent (env : Env) (orderID : Int) (order : Order) : Event :=
  .orderConfirmed
    { OrderID := orderID, CustomerID := order.CustomerID,
      ConfirmedAt := env.formatTime order.UpdatedAt }

/-- An unprocessed outbox row of aggregate type "Order". -/
def orderOutboxRow (id : Int) (orderID : Int) (eventType : String) (payload : Bytes)
    (now : Time) : OutboxMessage :=
  { ID := id, AggregateType := "Order", AggregateID := FormatInt orderID,
    EventType := eventType, Payload := payload, CreatedAt := now, ProcessedAt := none,
    Processed := false }

/-- Successive calls of `OrderService.ConfirmOrder` for one order on a store without faults,
one call per clock reading; the results of the calls are collected in order. -/
def confirmRepeatedly (env : Env) (orderID : Int) :
    DB → List Time → List (Except Error Unit) × DB
  | db, [] => ([], db)
  | db, t :: ts =>
    let r := OrderService.ConfirmOrder env ConfirmOrderFaults.none t db orderID
    let rest := confirmRepeatedly env orderID r.2 ts
    (r.1 :: rest.1, rest.2)

/-- Number of committed outbox rows that carry an `OrderConfirmed` event of order `orderID`. -/
def confirmedMessages (db : DB) (orderID : Int) : Nat :=
  (db.committed.outbox.filter (fun m =>
    decide (m.EventType = EventTypeOrderConfirmed ∧ m.AggregateType = AggregateTypeOrder ∧
      m.AggregateID = FormatInt orderID))).length

end Outbox

namespace Stability

/-! ## Circuit breaker (stability/circuit_breaker/circuit_breaker.go) -/

/-- `State` with its two constants. -/
inductive State where
  | StateClosed
  | StateOpen
deriving DecidableEq, Repr

/-- The Go `error` values the breaker handles: the sentinel `ErrCircuitOpen` of the package and
any other error, which only `fn` can produce. -/
inductive Error where
  | ErrCircuitOpen
  | other (msg : String)
deriving DecidableEq, Repr

/-- Largest Go `int` (64 bits), also the largest `time.Duration`. -/
def maxInt : Int := 9223372036854775807

/-- Smallest Go `int` (64 bits), also the smallest `time.Duration`. -/
def minInt : Int := -9223372036854775808

/-- Arithmetic on a Go `int` wraps around at 64 bits. -/
def wrapInt (x : Int) : Int :=
  (x + 9223372036854775808) % 18446744073709551616 - 9223372036854775808

/-- `time.Since(t)` when the clock reads `now`: instants are nanoseconds on the time line, and
the elapsed time is saturated to the range of `time.Duration`, as `Time.Sub` does. -/
def timeSince (now t : Int) : Int :=
  if now - t > maxInt then maxInt
  else if now - t < minInt then minInt
  else now - t

/-- The zero `time.Time` (1 January of year 1, UTC) in nanoseconds from the Unix epoch. -/
def zeroTime : Int := -62135596800000000000

/-- `CircuitBreaker` without its mutex: calls are taken one after the other. -/
structure CircuitBreaker where
  maxFailures : Int
  timeout : Int
  state : State
  failures : Int
  lastFailTime : Int
deriving DecidableEq, Repr

/-- `NewCircuitBreaker`: the fields it does not set keep their zero values. -/
def NewCircuitBreaker (maxFailures : Int) (timeout : Int) : CircuitBreaker :=
  { maxFailures := maxFailures, timeout := timeout, state := State.StateClosed,
    failures := 0, lastFailTime := zeroTime }

/-- `CircuitBreaker.Call`. The clock is an argument: `now` is what `time.Since` reads when an
open breaker is checked, `done` what `time.Now()` reads after `fn` has failed. `fn` acts on a
world `σ` that `Call` hands through, so a call that does not invoke `fn` returns the world it
was given. The result is the returned error, the breaker and the world after the call. -/
def CircuitBreaker.Call {σ : Type} (cb : CircuitBreaker) (now done : Int)
    (fn : σ → Option Error × σ) (s : σ) : Option Error × CircuitBreaker × σ :=
  let checked : Option CircuitBreaker :=
    if cb.state = State.StateOpen then
      if timeSince now cb.lastFailTime > cb.timeout then
        some { cb with state := State.StateClosed, failures := 0 }
      else none
    else some cb
  match checked with
  | none => (some Error.ErrCircuitOpen, cb, s)
  | some cb =>
    let (err, s) := fn s
    match err with
    | some e =>
      let cb := { cb with failures := wrapInt (cb.failures + 1), lastFailTime := done }
      let cb := if cb.failures ≥ cb.maxFailures then { cb with state := State.StateOpen } else cb
      (some e, cb, s)
    | none => (none, { cb with failures := 0, state := State.StateClosed }, s)

/-- One call of a history: the two clock readings and what `fn` returns when it is invoked. -/
structure CallEvent where
  now : Int
  done : Int
  result : Option Error
deriving DecidableEq, Repr

/-- A call whose `fn` succeeds, with both clock readings at `t`. -/
def succeedsAt (t : Int) : CallEvent :=
  { now := t, done := t, result := none }

end Stability

namespace Outbox

/-! ## Lemmas on lists -/


theorem sqlSelectOrder_none (t : Tables) (id : Int) (h : ∀ o ∈ t.orders, o.ID ≠ id) :
    sqlSelectOrder t id = none := by
  unfold sqlSelectOrder
  rw [List.find?_eq_none]
  intro o ho
  simpa using h o ho

theorem sqlMarkProcessed_ids (t : Tables) (now : Time) (id : Int) :
    (sqlMarkProcessed t now id).1.outbox.map (fun m => m.ID) = t.outbox.map (fun m => m.ID) := by
  simp only [sqlMarkProcessed, List.map_map]
  apply List.map_congr_left
  intro m _
  by_cases h : m.ID = id ∧ m.Processed = false <;> simp [h]

theorem sqlMarkProcessed_count (t : Tables) (now : Time) (id : Int) :
    ((sqlMarkProcessed t now id).1.outbox.filter (fun m => !m.Processed)).length
        + (sqlMarkProcessed t now id).2
      = (t.outbox.filter (fun m => !m.Processed)).length := by
  simp only [sqlMarkProcessed]
  induction t.outbox with
  | nil => simp
  | cons m l ih =>
    by_cases h1 : m.ID = id <;> cases h2 : m.Processed <;>
      simp [h1, h2, List.filter_cons] <;> simp at ih <;> omega

theorem sqlMarkProcessed_rows (t : Tables) (now : Time) (id : Int) :
    ∀ row' ∈ (sqlMarkProcessed t now id).1.outbox, ∃ row ∈ t.outbox,
      row'.ID = row.ID ∧ messageKey row' = messageKey row ∧ row'.Payload = row.Payload ∧
      (row' = row ∨ (row.ID = id ∧ row.Processed = false ∧ row'.Processed = true)) := by
  intro row' h
  simp only [sqlMarkProcessed, List.mem_map] at h
  obtain ⟨row, hrow, rfl⟩ := h
  refine ⟨row, hrow, ?_⟩
  by_cases hc : row.ID = id ∧ row.Processed = false
  · simp [hc, messageKey]
  · simp [hc]

theorem filter_id_length_le (id : Int) :
    ∀ l : List OutboxMessage, (l.map (fun m => m.ID)).Nodup →
      (l.filter (fun m => decide (m.ID = id ∧ m.Processed = false))).length ≤ 1
  | [], _ => by simp
  | m :: l, hnd => by
    rw [List.map_cons, List.nodup_cons] at hnd
    have ih := filter_id_length_le id l hnd.2
    by_cases h1 : m.ID = id ∧ m.Processed = false
    · have hnone : l.filter (fun m => decide (m.ID = id ∧ m.Processed = false)) = [] := by
        rw [List.filter_eq_nil_iff]
        intro x hx hdec
        have hxid : x.ID = id := (of_decide_eq_true hdec).1
        apply hnd.1
        rw [h1.1, ← hxid]
        exact List.mem_map_of_mem _ hx
      rw [List.filter_cons, if_pos (by simpa using h1), hnone]
      simp
    · simpa [List.filter_cons, h1] using ih

theorem sqlMarkProcessed_affected_le (t : Tables) (now : Time) (id : Int)
    (hnd : (t.outbox.map (fun m => m.ID)).Nodup) : (sqlMarkProcessed t now id).2 ≤ 1 :=
  filter_id_length_le id t.outbox hnd

theorem sqlMarkProcessed_affected_pos (t : Tables) (now : Time) (id : Int)
    (hex : ∃ m ∈ t.outbox, m.ID = id ∧ m.Processed = false) :
    (sqlMarkProcessed t now id).2 ≠ 0 := by
  obtain ⟨m, hm, hid, hp⟩ := hex
  simp only [sqlMarkProcessed]
  intro h0
  rw [List.length_eq_zero, List.filter_eq_nil_iff] at h0
  exact h0 m hm (by simp [hid, hp])

theorem processMessage_committed (f : ProcessFaults) (now : Time) (w : World)
    (msg : OutboxMessage) :
    (OutboxProcessor.processMessage f now w msg).2.db.committed = w.db.committed ∨
    (f.publish = none ∧ (OutboxProcessor.processMessage f now w msg).1 = .ok () ∧
      (OutboxProcessor.processMessage f now w msg).2.db.committed
        = (sqlMarkProcessed w.db.committed now msg.ID).1) := by
  obtain ⟨fp, fb, ⟨fe, fr⟩, fc⟩ := f
  unfold OutboxProcessor.processMessage
  by_cases h0 : (sqlMarkProcessed w.db.committed now msg.ID).2 = 0 <;>
    cases fp <;> cases fb <;> cases fe <;> cases fr <;> cases fc <;>
    simp [KafkaPublisher.Publish, DB.Begin, outboxRepository.MarkAsProcessed, Tx.Commit,
      Tx.Rollback, h0]

theorem processMessage_noFaults (now : Time) (w : World) (msg : OutboxMessage)
    (hpos : (sqlMarkProcessed w.db.committed now msg.ID).2 ≠ 0) :
    (OutboxProcessor.processMessage ProcessFaults.none now w msg).1 = .ok () ∧
    (OutboxProcessor.processMessage ProcessFaults.none now w msg).2.db.committed
      = (sqlMarkProcessed w.db.committed now msg.ID).1 := by
  unfold OutboxProcessor.processMessage
  simp [KafkaPublisher.Publish, DB.Begin, outboxRepository.MarkAsProcessed, Tx.Commit,
    Tx.Rollback, ProcessFaults.none, ExecFaults.none, hpos]

theorem processMessage_log (f : ProcessFaults) (now : Time) (w : World) (msg : OutboxMessage) :
    (OutboxProcessor.processMessage f now w msg).2.sink.log
      = w.sink.log ++ [{ key := messageKey msg, value := msg.Payload,
                         acked := f.publish.isNone }] := by
  obtain ⟨fp, fb, ⟨fe, fr⟩, fc⟩ := f
  unfold OutboxProcessor.processMessage
  by_cases h0 : (sqlMarkProcessed w.db.committed now msg.ID).2 = 0 <;>
    cases fp <;> cases fb <;> cases fe <;> cases fr <;> cases fc <;>
    simp [KafkaPublisher.Publish, DB.Begin, outboxRepository.MarkAsProcessed, Tx.Commit,
      Tx.Rollback, h0]

theorem sqlMarkProcessed_again (t : Tables) (now now' : Time) (id : Int) :
    (sqlMarkProcessed (sqlMarkProcessed t now id).1 now' id).2 = 0 := by
  simp only [sqlMarkProcessed, List.length_eq_zero, List.filter_eq_nil_iff, List.mem_map]
  rintro m ⟨row, _, rfl⟩
  by_cases hc : row.ID = id ∧ row.Processed = false
  · simp [hc]
  · simp [hc]

theorem markCommitted_eq (now : Time) (db : DB) (id : Int) :
    (markCommitted now db id).1
        = (if (sqlMarkProcessed db.committed now id).2 = 0 then .error .ErrAlreadyProcessed
           else .ok ()) ∧
    (markCommitted now db id).2.committed
        = (if (sqlMarkProcessed db.committed now id).2 = 0 then db.committed
           else (sqlMarkProcessed db.committed now id).1) := by
  unfold markCommitted
  by_cases h0 : (sqlMarkProcessed db.committed now id).2 = 0 <;>
    simp [DB.Begin, outboxRepository.MarkAsProcessed, ExecFaults.none, Tx.Commit,
      Tx.Rollback, h0]


theorem processMessage_orders (f : ProcessFaults) (now : Time) (w : World)
    (msg : OutboxMessage) :
    (OutboxProcessor.processMessage f now w msg).2.db.committed.orders
      = w.db.committed.orders := by
  rcases processMessage_committed f now w msg with h | ⟨_, _, h⟩ <;> rw [h]
  rfl

theorem processMessage_ids (f : ProcessFaults) (now : Time) (w : World)
    (msg : OutboxMessage) :
    (OutboxProcessor.processMessage f now w msg).2.db.committed.outbox.map (fun m => m.ID)
      = w.db.committed.outbox.map (fun m => m.ID) := by
  rcases processMessage_committed f now w msg with h | ⟨_, _, h⟩ <;> rw [h]
  exact sqlMarkProcessed_ids _ _ _

theorem processMessage_rows (f : ProcessFaults) (now : Time) (w : World)
    (msg : OutboxMessage) :
    ∀ row' ∈ (OutboxProcessor.processMessage f now w msg).2.db.committed.outbox,
      ∃ row ∈ w.db.committed.outbox,
        row'.ID = row.ID ∧ messageKey row' = messageKey row ∧ row'.Payload = row.Payload ∧
        (row' = row ∨
          (row.ID = msg.ID ∧ row.Processed = false ∧ row'.Processed = true ∧
            f.publish = none)) := by
  intro row' hrow'
  rcases processMessage_committed f now w msg with h | ⟨hp, _, h⟩
  · rw [h] at hrow'
    exact ⟨row', hrow', rfl, rfl, rfl, Or.inl rfl⟩
  · rw [h] at hrow'
    obtain ⟨row, hrow, h1, h2, h3, h4⟩ := sqlMarkProcessed_rows _ _ _ row' hrow'
    refine ⟨row, hrow, h1, h2, h3, ?_⟩
    rcases h4 with h4 | ⟨h4, h5, h6⟩
    · exact Or.inl h4
    · exact Or.inr ⟨h4, h5, h6, hp⟩

theorem processBatch_log (f : CycleFaults) (now : Time) :
    ∀ (msgs : List OutboxMessage) (w : World),
      (processBatch f now w msgs).sink.log
        = w.sink.log ++ msgs.map (fun m =>
            ({ key := messageKey m, value := m.Payload,
               acked := (f.msg m.ID).publish.isNone } : PublishCall))
  | [], w => by simp [processBatch]
  | msg :: rest, w => by
    rw [processBatch, processBatch_log f now rest, processMessage_log]
    simp

theorem processBatch_orders (f : CycleFaults) (now : Time) :
    ∀ (msgs : List OutboxMessage) (w : World),
      (processBatch f now w msgs).db.committed.orders = w.db.committed.orders
  | [], w => by simp [processBatch]
  | msg :: rest, w => by
    rw [processBatch, processBatch_orders f now rest, processMessage_orders]

theorem processBatch_ids (f : CycleFaults) (now : Time) :
    ∀ (msgs : List OutboxMessage) (w : World),
      (processBatch f now w msgs).db.committed.outbox.map (fun m => m.ID)
        = w.db.committed.outbox.map (fun m => m.ID)
  | [], w => by simp [processBatch]
  | msg :: rest, w => by
    rw [processBatch, processBatch_ids f now rest, processMessage_ids]

theorem processBatch_delivered (f : CycleFaults) (now : Time) :
    ∀ (msgs : List OutboxMessage) (w : World),
      (∀ msg ∈ msgs, ∀ row ∈ w.db.committed.outbox, row.ID = msg.ID →
        messageKey row = messageKey msg ∧ row.Payload = msg.Payload) →
      (∀ m ∈ w.db.committed.outbox, m.Processed = true →
        ({ key := messageKey m, value := m.Payload, acked := true } : PublishCall)
          ∈ w.sink.log) →
      ∀ m ∈ (processBatch f now w msgs).db.committed.outbox, m.Processed = true →
        ({ key := messageKey m, value := m.Payload, acked := true } : PublishCall)
          ∈ (processBatch f now w msgs).sink.log
  | [], w, _, hdel => by simpa [processBatch] using hdel
  | msg :: rest, w, hsame, hdel => by
    rw [processBatch]
    apply processBatch_delivered f now rest
    · intro msg' hmsg' row' hrow' hid
      obtain ⟨row, hrow, h1, h2, h3, _⟩ :=
        processMessage_rows (f.msg msg.ID) now w msg row' hrow'
      have := hsame msg' (List.mem_cons_of_mem _ hmsg') row hrow (by rw [← h1]; exact hid)
      rw [h2, h3]
      exact this
    · intro m' hm' hproc
      obtain ⟨row, hrow, _, h2, h3, h4⟩ :=
        processMessage_rows (f.msg msg.ID) now w msg m' hm'
      rw [processMessage_log]
      rcases h4 with h4 | ⟨h4, _, _, hp⟩
      · subst h4
        exact List.mem_append_left _ (hdel m' hrow hproc)
      · have := hsame msg (List.mem_cons_self _ _) row hrow h4
        apply List.mem_append_right
        rw [h2, h3, this.1, this.2, hp]
        simp

/-! ## Lemmas on a poll cycle -/

theorem getUnprocessed_cases (q : QueryFaults) (db : DB) (limit : Int) :
    (outboxRepository.GetUnprocessed q db limit).2
        = { db with calls := db.calls ++ [Call.selectUnprocessed] } ∧
    ((0 ≤ limit ∧ (outboxRepository.GetUnprocessed q db limit).1
        = .ok ((sqlUnprocessed q.tie db.committed).take limit.toNat)) ∨
      ∃ err, (outboxRepository.GetUnprocessed q db limit).1 = .error err) := by
  obtain ⟨fq, fs, fr, tie⟩ := q
  unfold outboxRepository.GetUnprocessed
  by_cases hl : limit < 0
  · cases fq <;> simp [hl]
  · have hl' : 0 ≤ limit := by omega
    cases fq <;> cases fs <;> cases fr <;>
      cases hrows : (sqlUnprocessed tie db.committed).take limit.toNat <;>
      simp [hl, hl', hrows]

theorem fetched_sub (q : QueryFaults) (db : DB) (limit : Int) (m : OutboxMessage)
    (hm : m ∈ fetched q db limit) :
    0 ≤ limit ∧ m ∈ (sqlUnprocessed q.tie db.committed).take limit.toNat := by
  unfold fetched at hm
  rcases (getUnprocessed_cases q db limit).2 with ⟨hl, h⟩ | ⟨err, h⟩
  · rw [h] at hm
    exact ⟨hl, hm⟩
  · rw [h] at hm
    simp at hm

theorem queryFaults_none_succeeds : QueryFaults.none.succeeds := ⟨rfl, rfl, rfl⟩

theorem processMessages_eq (p : OutboxProcessor) (f : CycleFaults) (now : Time) (w : World) :
    p.processMessages f now w
      = processBatch f now
          { w with db := { w.db with calls := w.db.calls ++ [Call.selectUnprocessed] } }
          (fetched f.fetch w.db p.batchSize) := by
  have hc := getUnprocessed_cases f.fetch w.db p.batchSize
  unfold OutboxProcessor.processMessages fetched
  rcases hc.2 with ⟨_, h⟩ | ⟨err, h⟩
  · cases hg : outboxRepository.GetUnprocessed f.fetch w.db p.batchSize with
    | mk res db1 =>
      rw [hg] at hc h
      simp only at hc h
      rw [h, hc.1]
      simp only
      split
      · rename_i hlen
        rw [List.length_eq_zero] at hlen
        rw [hlen, processBatch]
      · rfl
  · cases hg : outboxRepository.GetUnprocessed f.fetch w.db p.batchSize with
    | mk res db1 =>
      rw [hg] at hc h
      simp only at hc h
      rw [h, hc.1]
      simp only [processBatch]

theorem mem_sqlUnprocessed (tie : OutboxMessage → Nat) (t : Tables) (m : OutboxMessage) :
    m ∈ sqlUnprocessed tie t ↔ m ∈ t.outbox ∧ m.Processed = false := by
  unfold sqlUnprocessed
  rw [List.mem_insertionSort, List.mem_filter]
  simp

theorem length_sqlUnprocessed (tie : OutboxMessage → Nat) (db : DB) :
    (sqlUnprocessed tie db.committed).length = unprocessedCount db := by
  unfold sqlUnprocessed unprocessedCount
  rw [List.length_insertionSort]

theorem processMessages_wf (p : OutboxProcessor) (f : CycleFaults) (now : Time) (w : World)
    (hwf : w.db.committed.WF) : (p.processMessages f now w).db.committed.WF := by
  unfold Tables.WF at hwf ⊢
  rw [processMessages_eq, processBatch_orders, processBatch_ids]
  exact hwf

theorem processMessages_delivered (p : OutboxProcessor) (f : CycleFaults) (now : Time)
    (w : World) (hwf : w.db.committed.WF)
    (hdel : ∀ m ∈ w.db.committed.outbox, m.Processed = true →
      ({ key := messageKey m, value := m.Payload, acked := true } : PublishCall)
        ∈ w.sink.log) :
    ∀ m ∈ (p.processMessages f now w).db.committed.outbox, m.Processed = true →
      ({ key := messageKey m, value := m.Payload, acked := true } : PublishCall)
        ∈ (p.processMessages f now w).sink.log := by
  rw [processMessages_eq]
  apply processBatch_delivered
  · intro msg hmsg row hrow hid
    have hmem := (mem_sqlUnprocessed _ _ _).mp
      (List.mem_of_mem_take (fetched_sub _ _ _ _ hmsg).2)
    have : row = msg :=
      List.inj_on_of_nodup_map hwf.2 hrow hmem.1 hid
    rw [this]
    exact ⟨rfl, rfl⟩
  · exact hdel

theorem runCycles_delivered (p : OutboxProcessor) :
    ∀ (fs : List (CycleFaults × Time)) (w : World), w.db.committed.WF →
      (∀ m ∈ w.db.committed.outbox, m.Processed = true →
        ({ key := messageKey m, value := m.Payload, acked := true } : PublishCall)
          ∈ w.sink.log) →
      ∀ m ∈ (runCycles p fs w).db.committed.outbox, m.Processed = true →
        ({ key := messageKey m, value := m.Payload, acked := true } : PublishCall)
          ∈ (runCycles p fs w).sink.log
  | [], w, _, hdel => by simpa [runCycles] using hdel
  | ft :: fs, w, hwf, hdel => by
    have h := runCycles_delivered p fs (p.processMessages ft.1 ft.2 w)
      (processMessages_wf p ft.1 ft.2 w hwf)
      (processMessages_delivered p ft.1 ft.2 w hwf hdel)
    simpa [runCycles] using h

theorem ackedCount_pos (s : Sink) (key : String) (value : Bytes)
    (h : ({ key := key, value := value, acked := true } : PublishCall) ∈ s.log) :
    1 ≤ ackedCount s key value := by
  unfold ackedCount
  apply List.length_pos_of_mem (a := ({ key := key, value := value, acked := true } : PublishCall))
  rw [List.mem_filter]
  exact ⟨h, by simp⟩


theorem sqlUnprocessed_sorted (tie : OutboxMessage → Nat) (t : Tables) :
    (sqlUnprocessed tie t).Pairwise createdBefore := by
  have h : (sqlUnprocessed tie t).Pairwise (returnedBefore tie) :=
    List.sorted_insertionSort (returnedBefore tie) _
  refine h.imp ?_
  intro a b hab
  rcases hab with hlt | ⟨heq, _⟩
  · exact Nat.le_of_lt hlt
  · exact Nat.le_of_eq heq

theorem eq_of_perm_of_pairwise {α : Type} (r : α → α → Prop) :
    ∀ (l₁ l₂ : List α), l₁.Perm l₂ → l₁.Pairwise r → l₂.Pairwise r →
      (∀ a ∈ l₁, ∀ b ∈ l₁, r a b → r b a → a = b) → l₁ = l₂
  | [], l₂, hp, _, _, _ => hp.nil_eq
  | a :: l₁, [], hp, _, _, _ => absurd hp.symm.nil_eq (by simp)
  | a :: l₁, b :: l₂, hp, h1, h2, hanti => by
    have hab : a = b := by
      have ha : a ∈ b :: l₂ := hp.subset (List.mem_cons_self _ _)
      have hb : b ∈ a :: l₁ := hp.symm.subset (List.mem_cons_self _ _)
      rcases List.mem_cons.mp ha with h | h
      · exact h
      · rcases List.mem_cons.mp hb with h' | h'
        · exact h'.symm
        · exact hanti a (List.mem_cons_self _ _) b hb
            ((List.pairwise_cons.mp h1).1 b h') ((List.pairwise_cons.mp h2).1 a h)
    subst hab
    have hrest := eq_of_perm_of_pairwise r l₁ l₂ (List.Perm.cons_inv hp)
      (List.pairwise_cons.mp h1).2 (List.pairwise_cons.mp h2).2
      (fun x hx y hy => hanti x (List.mem_cons_of_mem _ hx) y (List.mem_cons_of_mem _ hy))
    rw [hrest]

/-- The query can return the unprocessed rows in every order that is sorted by
`created_at`: each such order is the one given by some rank `tie`. -/
theorem sqlUnprocessed_any_order (t : Tables) (rows : List OutboxMessage)
    (hnd : (t.outbox.map (fun m => m.ID)).Nodup)
    (hperm : rows.Perm (t.outbox.filter (fun m => !m.Processed)))
    (hsorted : rows.Pairwise createdBefore) :
    ∃ tie : OutboxMessage → Nat, sqlUnprocessed tie t = rows := by
  have hrows : rows.Nodup :=
    hperm.nodup_iff.mpr ((List.Nodup.of_map _ hnd).sublist (List.filter_sublist _))
  refine ⟨fun m => rows.indexOf m, ?_⟩
  unfold sqlUnprocessed
  apply eq_of_perm_of_pairwise (returnedBefore (fun m => rows.indexOf m))
  · exact (List.perm_insertionSort _ _).trans hperm.symm
  · exact List.sorted_insertionSort _ _
  · rw [List.pairwise_iff_getElem] at hsorted ⊢
    intro i j hi hj hij
    have hc := hsorted i j hi hj hij
    rcases Nat.lt_or_eq_of_le hc with hlt | heq
    · exact Or.inl hlt
    · refine Or.inr ⟨heq, ?_⟩
      show rows.indexOf rows[i] ≤ rows.indexOf rows[j]
      rw [List.indexOf_getElem hrows i hi, List.indexOf_getElem hrows j hj]
      exact Nat.le_of_lt hij
  · intro a ha b hb hab hba
    have ha' : a ∈ rows :=
      hperm.symm.subset ((List.perm_insertionSort _ _).subset ha)
    have hb' : b ∈ rows :=
      hperm.symm.subset ((List.perm_insertionSort _ _).subset hb)
    apply (List.indexOf_inj ha' hb').mp
    rcases hab with h1 | ⟨h1, h1'⟩
    · rcases hba with h2 | ⟨h2, _⟩
      · exact absurd h1 (Nat.lt_asymm h2)
      · exact absurd h1 (by rw [h2]; exact Nat.lt_irrefl _)
    · rcases hba with h2 | ⟨_, h2'⟩
      · exact absurd h2 (by rw [h1]; exact Nat.lt_irrefl _)
      · exact Nat.le_antisymm h1' h2'

theorem cycleFaults_none_succeeds : CycleFaults.none.succeeds :=
  ⟨⟨rfl, rfl, rfl⟩, fun _ => rfl⟩


/-! ## Lemmas on the accounting of processed rows -/

theorem mark_filter_length (now : Time) (id : Int) (P : OutboxMessage → Bool) (c : Nat) :
    ∀ l : List OutboxMessage, (l.map (fun m => m.ID)).Nodup →
      (∀ row ∈ l, row.ID = id → row.Processed = false →
        P { row with Processed := true, ProcessedAt := some now } = true → 1 ≤ c) →
      ((l.map (fun m => if m.ID = id ∧ m.Processed = false then
            { m with Processed := true, ProcessedAt := some now } else m)).filter P).length
        ≤ (l.filter P).length + c
  | [], _, _ => by simp
  | m :: l, hnd, hP => by
    rw [List.map_cons, List.nodup_cons] at hnd
    have hP' : ∀ row ∈ l, row.ID = id → row.Processed = false →
        P { row with Processed := true, ProcessedAt := some now } = true → 1 ≤ c :=
      fun row hrow => hP row (List.mem_cons_of_mem _ hrow)
    have ih := mark_filter_length now id P c l hnd.2 hP'
    by_cases hc : m.ID = id ∧ m.Processed = false
    · have hrest : l.map (fun m => if m.ID = id ∧ m.Processed = false then
            { m with Processed := true, ProcessedAt := some now } else m) = l := by
        conv_rhs => rw [← List.map_id l]
        apply List.map_congr_left
        intro x hx
        have hxid : ¬ x.ID = id := by
          intro hxid
          apply hnd.1
          rw [hc.1, ← hxid]
          exact List.mem_map_of_mem _ hx
        simp [hxid]
      have hm := hP m (List.mem_cons_self _ _) hc.1 hc.2
      rw [List.map_cons, hrest, if_pos hc]
      have hle : (l.filter P).length ≤ ((m :: l).filter P).length :=
        (List.Sublist.filter P (List.sublist_cons_self m l)).length_le
      by_cases hp : P { m with Processed := true, ProcessedAt := some now } = true
      · rw [List.filter_cons_of_pos hp, List.length_cons]
        have := hm hp
        omega
      · rw [List.filter_cons_of_neg hp]
        omega
    · rw [List.map_cons, if_neg hc]
      by_cases hp : P m = true
      · rw [List.filter_cons_of_pos hp, List.filter_cons_of_pos hp, List.length_cons,
          List.length_cons]
        omega
      · rw [List.filter_cons_of_neg hp, List.filter_cons_of_neg hp]
        exact ih

theorem sqlMarkProcessed_processedCount (db : DB) (now : Time) (msg : OutboxMessage)
    (key : String) (value : Bytes)
    (hnd : (db.committed.outbox.map (fun m => m.ID)).Nodup)
    (hsame : ∀ row ∈ db.committed.outbox, row.ID = msg.ID →
      messageKey row = messageKey msg ∧ row.Payload = msg.Payload) :
    ((sqlMarkProcessed db.committed now msg.ID).1.outbox.filter
        (fun m => m.Processed && decide (messageKey m = key ∧ m.Payload = value))).length
      ≤ processedCount db key value
        + (if messageKey msg = key ∧ msg.Payload = value then 1 else 0) := by
  unfold processedCount sqlMarkProcessed
  apply mark_filter_length now msg.ID _ _ _ hnd
  intro row hrow hid _ hp
  have hs := hsame row hrow hid
  simp only [messageKey, Bool.true_and, decide_eq_true_eq] at hp hs
  rw [hs.1, hs.2] at hp
  simp [messageKey, hp]

theorem processMessage_accounted (f : ProcessFaults) (now : Time) (w : World)
    (msg : OutboxMessage) (hnd : (w.db.committed.outbox.map (fun m => m.ID)).Nodup)
    (hsame : ∀ row ∈ w.db.committed.outbox, row.ID = msg.ID →
      messageKey row = messageKey msg ∧ row.Payload = msg.Payload)
    (hacc : ∀ key value, processedCount w.db key value ≤ ackedCount w.sink key value) :
    ∀ key value,
      processedCount (OutboxProcessor.processMessage f now w msg).2.db key value
        ≤ ackedCount (OutboxProcessor.processMessage f now w msg).2.sink key value := by
  intro key value
  have hlog := processMessage_log f now w msg
  rcases processMessage_committed f now w msg with h | ⟨hp, _, h⟩
  · unfold processedCount ackedCount
    rw [h, hlog, List.filter_append, List.length_append]
    have := hacc key value
    unfold processedCount ackedCount at this
    omega
  · have hcount := sqlMarkProcessed_processedCount w.db now msg key value hnd hsame
    have := hacc key value
    unfold processedCount ackedCount at this ⊢
    rw [h, hlog, List.filter_append, List.length_append, hp]
    unfold processedCount at hcount
    have hone : (List.filter (fun c => decide (c.key = key ∧ c.value = value) && c.acked)
        [({ key := messageKey msg, value := msg.Payload,
            acked := (none : Option Error).isNone } : PublishCall)]).length
        = (if messageKey msg = key ∧ msg.Payload = value then 1 else 0) := by
      by_cases hk : messageKey msg = key ∧ msg.Payload = value
      · simp [hk]
      · rw [if_neg hk]
        simp only [List.length_eq_zero, List.filter_eq_nil_iff, List.mem_singleton]
        rintro c rfl
        simpa using fun h1 => (hk ⟨h1, ·⟩)
    rw [hone]
    omega

theorem processBatch_accounted (f : CycleFaults) (now : Time) :
    ∀ (msgs : List OutboxMessage) (w : World),
      (w.db.committed.outbox.map (fun m => m.ID)).Nodup →
      (∀ msg ∈ msgs, ∀ row ∈ w.db.committed.outbox, row.ID = msg.ID →
        messageKey row = messageKey msg ∧ row.Payload = msg.Payload) →
      (∀ key value, processedCount w.db key value ≤ ackedCount w.sink key value) →
      ∀ key value, processedCount (processBatch f now w msgs).db key value
        ≤ ackedCount (processBatch f now w msgs).sink key value
  | [], w, _, _, hacc => by simpa [processBatch] using hacc
  | msg :: rest, w, hnd, hsame, hacc => by
    rw [processBatch]
    apply processBatch_accounted f now rest
    · rw [processMessage_ids]; exact hnd
    · intro msg' hmsg' row' hrow' hid
      obtain ⟨row, hrow, h1, h2, h3, _⟩ :=
        processMessage_rows (f.msg msg.ID) now w msg row' hrow'
      have := hsame msg' (List.mem_cons_of_mem _ hmsg') row hrow (by rw [← h1]; exact hid)
      rw [h2, h3]
      exact this
    · exact processMessage_accounted _ now w msg hnd
        (hsame msg (List.mem_cons_self _ _)) hacc

theorem processMessages_accounted (p : OutboxProcessor) (f : CycleFaults) (now : Time)
    (w : World) (hwf : w.db.committed.WF)
    (hacc : ∀ key value, processedCount w.db key value ≤ ackedCount w.sink key value) :
    ∀ key value, processedCount (p.processMessages f now w).db key value
      ≤ ackedCount (p.processMessages f now w).sink key value := by
  rw [processMessages_eq]
  apply processBatch_accounted
  · exact hwf.2
  · intro msg hmsg row hrow hid
    have hmem := (mem_sqlUnprocessed _ _ _).mp
      (List.mem_of_mem_take (fetched_sub _ _ _ _ hmsg).2)
    have : row = msg := List.inj_on_of_nodup_map hwf.2 hrow hmem.1 hid
    rw [this]
    exact ⟨rfl, rfl⟩
  · exact hacc

theorem runCycles_accounted (p : OutboxProcessor) :
    ∀ (fs : List (CycleFaults × Time)) (w : World), w.db.committed.WF →
      (∀ key value, processedCount w.db key value ≤ ackedCount w.sink key value) →
      ∀ key value, processedCount (runCycles p fs w).db key value
        ≤ ackedCount (runCycles p fs w).sink key value
  | [], w, _, hacc => by simpa [runCycles] using hacc
  | ft :: fs, w, hwf, hacc => by
    have h := runCycles_accounted p fs (p.processMessages ft.1 ft.2 w)
      (processMessages_wf p ft.1 ft.2 w hwf)
      (processMessages_accounted p ft.1 ft.2 w hwf hacc)
    simpa [runCycles] using h

theorem processedCount_zero (db : DB) (key : String) (value : Bytes)
    (h0 : ∀ m ∈ db.committed.outbox, m.Processed = false) :
    processedCount db key value = 0 := by
  unfold processedCount
  rw [List.length_eq_zero, List.filter_eq_nil_iff]
  intro m hm
  simp [h0 m hm]

/-! ## The store invariant holds in every reachable state -/

theorem emptyDB_wf : emptyDB.WF := by decide

theorem nodup_map_append_fresh {α : Type} (f : α → Int) (l : List α) (r : α) (s : Int)
    (hnd : (l.map f).Nodup) (hle : ∀ x ∈ l, f x ≤ s) (hr : f r = s + 1) :
    ((l ++ [r]).map f).Nodup := by
  rw [List.map_append, List.nodup_append]
  refine ⟨hnd, by simp, ?_⟩
  intro a ha hb
  simp only [List.map_cons, List.map_nil, List.mem_singleton] at hb
  obtain ⟨x, hx, rfl⟩ := List.mem_map.mp ha
  have := hle x hx
  omega

theorem createOrder_cases (env : Env) (f : CreateOrderFaults) (now : Time) (db : DB)
    (req : CreateOrderRequest) :
    ((OrderService.CreateOrder env f now db req).2.committed = db.committed ∨
      ∃ (order : Order) (msg : OutboxMessage),
        (OrderService.CreateOrder env f now db req).2.committed
          = { orders := db.committed.orders ++ [order],
              outbox := db.committed.outbox ++ [msg] } ∧
        order.ID = db.orderSeq + 1 ∧ msg.ID = db.outboxSeq + 1 ∧
        (OrderService.CreateOrder env f now db req).2.orderSeq = db.orderSeq + 1 ∧
        (OrderService.CreateOrder env f now db req).2.outboxSeq = db.outboxSeq + 1) ∧
    db.orderSeq ≤ (OrderService.CreateOrder env f now db req).2.orderSeq ∧
    db.outboxSeq ≤ (OrderService.CreateOrder env f now db req).2.outboxSeq := by
  obtain ⟨fb, fo, fx, fc⟩ := f
  unfold OrderService.CreateOrder
  cases hv : req.Validate with
  | error e => simp
  | ok u =>
    cases fb <;> cases fo <;> cases fx <;> cases fc <;>
      simp [DB.Begin, orderRepository.Create, Tx.Rollback, NewOutboxMessage,
        outboxRepository.Create, Tx.Commit, sqlInsertOrder, sqlInsertOutbox] <;>
      cases env.jsonMarshal _ <;>
      simp
    exact Or.inr ⟨_, _, ⟨rfl, rfl⟩, rfl, rfl⟩

theorem createOrder_wf (env : Env) (f : CreateOrderFaults) (now : Time) (db : DB)
    (req : CreateOrderRequest) (hwf : db.WF) :
    (OrderService.CreateOrder env f now db req).2.WF := by
  obtain ⟨⟨ho, hx⟩, hlo, hlx⟩ := hwf
  obtain ⟨hc, hso, hsx⟩ := createOrder_cases env f now db req
  unfold DB.WF Tables.WF
  rcases hc with h | ⟨order, msg, h, hoid, hmid, hso', hsx'⟩
  · rw [h]
    exact ⟨⟨ho, hx⟩, fun o h => Int.le_trans (hlo o h) hso,
      fun m h => Int.le_trans (hlx m h) hsx⟩
  · rw [h, hso', hsx']
    refine ⟨⟨nodup_map_append_fresh _ _ _ _ ho hlo hoid,
      nodup_map_append_fresh _ _ _ _ hx hlx hmid⟩, ?_, ?_⟩
    · intro o ho'
      rcases List.mem_append.mp ho' with h | h
      · exact Int.le_trans (hlo o h) (by omega)
      · rw [List.mem_singleton.mp h, hoid]
    · intro m hm'
      rcases List.mem_append.mp hm' with h | h
      · exact Int.le_trans (hlx m h) (by omega)
      · rw [List.mem_singleton.mp h, hmid]

theorem confirmOrder_cases (env : Env) (f : ConfirmOrderFaults) (now : Time) (db : DB)
    (orderID : Int) :
    ((OrderService.ConfirmOrder env f now db orderID).2.committed = db.committed ∨
      ∃ msg : OutboxMessage,
        (OrderService.ConfirmOrder env f now db orderID).2.committed
          = { orders := (sqlUpdateOrderStatus db.committed now OrderStatusConfirmed
                orderID).1.orders,
              outbox := db.committed.outbox ++ [msg] } ∧
        msg.ID = db.outboxSeq + 1 ∧
        (OrderService.ConfirmOrder env f now db orderID).2.outboxSeq = db.outboxSeq + 1) ∧
    (OrderService.ConfirmOrder env f now db orderID).2.orderSeq = db.orderSeq ∧
    db.outboxSeq ≤ (OrderService.ConfirmOrder env f now db orderID).2.outboxSeq := by
  obtain ⟨fb, fg, ⟨fe, fr⟩, fx, fc⟩ := f
  unfold OrderService.ConfirmOrder
  cases fb with
  | some e => simp [DB.Begin]
  | none =>
    cases fg with
    | some e =>
      by_cases he : e = Error.sqlErrNoRows <;>
        simp [DB.Begin, orderRepository.GetByID, Tx.Rollback, he]
    | none =>
      cases hsel : sqlSelectOrder db.committed orderID with
      | none => simp [DB.Begin, orderRepository.GetByID, Tx.Rollback, hsel]
      | some o =>
        have hne : ¬ ∀ a ∈ db.committed.orders, ¬ a.ID = orderID := by
          intro hall
          rw [sqlSelectOrder_none _ _ hall] at hsel
          cases hsel
        cases fe <;> cases fr <;> cases fx <;> cases fc <;>
          simp [DB.Begin, orderRepository.GetByID, Tx.Rollback, hsel, hne,
            orderRepository.UpdateStatus, NewOutboxMessage, outboxRepository.Create,
            Tx.Commit, sqlUpdateOrderStatus, sqlInsertOutbox] <;>
          cases env.jsonMarshal _ <;>
          simp

theorem sqlUpdateOrderStatus_ids (t : Tables) (now : Time) (status : String) (id : Int) :
    (sqlUpdateOrderStatus t now status id).1.orders.map (fun o => o.ID)
      = t.orders.map (fun o => o.ID) := by
  simp only [sqlUpdateOrderStatus, List.map_map]
  apply List.map_congr_left
  intro o _
  by_cases h : o.ID = id <;> simp [h]

theorem confirmOrder_wf (env : Env) (f : ConfirmOrderFaults) (now : Time) (db : DB)
    (orderID : Int) (hwf : db.WF) :
    (OrderService.ConfirmOrder env f now db orderID).2.WF := by
  obtain ⟨⟨ho, hx⟩, hlo, hlx⟩ := hwf
  obtain ⟨hc, hso, hsx⟩ := confirmOrder_cases env f now db orderID
  unfold DB.WF Tables.WF
  rcases hc with h | ⟨msg, h, hmid, hsx'⟩
  · rw [h, hso]
    exact ⟨⟨ho, hx⟩, hlo, fun m h => Int.le_trans (hlx m h) hsx⟩
  · rw [h, hso, hsx']
    refine ⟨⟨by rw [sqlUpdateOrderStatus_ids]; exact ho,
      nodup_map_append_fresh _ _ _ _ hx hlx hmid⟩, ?_, ?_⟩
    · intro o ho'
      have hid : o.ID ∈ (sqlUpdateOrderStatus db.committed now OrderStatusConfirmed
          orderID).1.orders.map (fun o => o.ID) := List.mem_map_of_mem _ ho'
      rw [sqlUpdateOrderStatus_ids] at hid
      obtain ⟨o', ho'', hid'⟩ := List.mem_map.mp hid
      rw [← hid']
      exact hlo o' ho''
    · intro m hm'
      rcases List.mem_append.mp hm' with h | h
      · exact Int.le_trans (hlx m h) (by omega)
      · rw [List.mem_singleton.mp h, hmid]

theorem processMessage_seqs (f : ProcessFaults) (now : Time) (w : World) (msg : OutboxMessage) :
    (OutboxProcessor.processMessage f now w msg).2.db.orderSeq = w.db.orderSeq ∧
    (OutboxProcessor.processMessage f now w msg).2.db.outboxSeq = w.db.outboxSeq := by
  obtain ⟨fp, fb, ⟨fe, fr⟩, fc⟩ := f
  unfold OutboxProcessor.processMessage
  by_cases h0 : (sqlMarkProcessed w.db.committed now msg.ID).2 = 0 <;>
    cases fp <;> cases fb <;> cases fe <;> cases fr <;> cases fc <;>
    simp [KafkaPublisher.Publish, DB.Begin, outboxRepository.MarkAsProcessed, Tx.Commit,
      Tx.Rollback, h0]

theorem processBatch_seqs (f : CycleFaults) (now : Time) :
    ∀ (msgs : List OutboxMessage) (w : World),
      (processBatch f now w msgs).db.orderSeq = w.db.orderSeq ∧
      (processBatch f now w msgs).db.outboxSeq = w.db.outboxSeq
  | [], w => by simp [processBatch]
  | msg :: rest, w => by
    have h1 := processMessage_seqs (f.msg msg.ID) now w msg
    have h2 := processBatch_seqs f now rest
      (OutboxProcessor.processMessage (f.msg msg.ID) now w msg).2
    rw [processBatch]
    exact ⟨h2.1.trans h1.1, h2.2.trans h1.2⟩

theorem processMessages_dbwf (p : OutboxProcessor) (f : CycleFaults) (now : Time) (w : World)
    (hwf : w.db.WF) : (p.processMessages f now w).db.WF := by
  obtain ⟨ht, hlo, hlx⟩ := hwf
  refine ⟨processMessages_wf p f now w ht, ?_, ?_⟩
  · rw [processMessages_eq, processBatch_orders, (processBatch_seqs f now _ _).1]
    exact hlo
  · intro m hm
    rw [processMessages_eq] at hm ⊢
    have hid : m.ID ∈ (processBatch f now
        { w with db := { w.db with calls := w.db.calls ++ [Call.selectUnprocessed] } }
        (fetched f.fetch w.db p.batchSize)).db.committed.outbox.map (fun m => m.ID) :=
      List.mem_map_of_mem _ hm
    rw [processBatch_ids] at hid
    obtain ⟨m', hm', hid'⟩ := List.mem_map.mp hid
    rw [(processBatch_seqs f now _ _).2, ← hid']
    exact hlx m' hm'

/-! ## Order service -/

/-- C1. For every request that passes validation, every store and every
outcome of the store calls: if `CreateOrder` returns an order, the committed
orders are the old ones plus that order and the committed outbox is the old one
plus one row, which has event type "OrderCreated", aggregate type "Order", the
decimal string of the order's id as aggregate id, and is unprocessed; if
`CreateOrder` returns an error, the committed tables are unchanged. -/
theorem createOrder_atomic (env : Env) (f : CreateOrderFaults) (now : Time) (db : DB)
    (req : CreateOrderRequest) (hv : req.Validate = .ok ()) :
    (∀ order, (OrderService.CreateOrder env f now db req).1 = .ok order →
      ∃ msg : OutboxMessage,
        (OrderService.CreateOrder env f now db req).2.committed.orders
            = db.committed.orders ++ [order] ∧
        (OrderService.CreateOrder env f now db req).2.committed.outbox
            = db.committed.outbox ++ [msg] ∧
        msg.EventType = "OrderCreated" ∧ msg.AggregateType = "Order" ∧
        msg.AggregateID = FormatInt order.ID ∧ msg.Processed = false) ∧
    (∀ err, (OrderService.CreateOrder env f now db req).1 = .error err →
      (OrderService.CreateOrder env f now db req).2.committed = db.committed) := by
  obtain ⟨fb, fo, fx, fc⟩ := f
  unfold OrderService.CreateOrder
  simp only [hv]
  cases fb <;> cases fo <;> cases fx <;> cases fc <;>
    simp [DB.Begin, orderRepository.Create, Tx.Rollback, NewOutboxMessage,
      outboxRepository.Create, Tx.Commit, sqlInsertOrder, sqlInsertOutbox] <;>
    cases env.jsonMarshal _ <;>
    simp [EventTypeOrderCreated, AggregateTypeOrder]

/-- The first demo request on the empty store: it passes validation, and the
committed outbox then holds one "OrderCreated" row for order 1. -/
theorem createOrder_atomic_witness :
    sampleRequest.Validate = .ok () ∧
    ∃ msg : OutboxMessage,
      (OrderService.CreateOrder sampleEnv CreateOrderFaults.none 5 emptyDB
          sampleRequest).2.committed.outbox = [msg] ∧
      msg.EventType = "OrderCreated" ∧ msg.AggregateID = "1" := by
  refine ⟨by decide, ?_⟩
  obtain ⟨msg, _, h2, h3, _, h5, _⟩ :=
    (createOrder_atomic sampleEnv CreateOrderFaults.none 5 emptyDB sampleRequest
      (by decide)).1 _ rfl
  exact ⟨msg, h2, h3, h5⟩

/-- `Validate` returns no error exactly when both identifiers are non-empty,
the quantity is positive and the comparison `TotalPrice <= 0` is false. -/
theorem validate_ok_iff (r : CreateOrderRequest) :
    r.Validate = .ok () ↔
      r.CustomerID ≠ "" ∧ r.ProductName ≠ "" ∧ 0 < r.Quantity ∧
        r.TotalPrice.le Float64.zero = false := by
  unfold CreateOrderRequest.Validate
  by_cases h1 : r.CustomerID = "" <;> by_cases h2 : r.ProductName = "" <;>
    by_cases h3 : r.Quantity ≤ 0 <;> by_cases h4 : r.TotalPrice.le Float64.zero = true <;>
    simp [h1, h2, h3, h4]
  omega

/-- The comparison `p <= 0` is false exactly when `p > 0` or `p` is NaN. -/
theorem float_not_le_zero (p : Float64) :
    p.le Float64.zero = false ↔ (p.gt Float64.zero = true ∨ p = Float64.nan) := by
  cases p <;> simp [Float64.le, Float64.gt, Float64.zero]

/-- A request that `Validate` rejects: `CreateOrder` returns the validation
error, wrapped, and the store is the one it was given, with no call made. -/
theorem createOrder_rejected (env : Env) (f : CreateOrderFaults) (now : Time) (db : DB)
    (req : CreateOrderRequest) (err : Error) (hv : req.Validate = .error err) :
    OrderService.CreateOrder env f now db req
      = (.error (.wrapped "validation failed" err), db) := by
  unfold OrderService.CreateOrder
  simp only [hv]

/-- C2, at a request with a NaN price: `Validate` returns no error although
the total price is not greater than zero, and `CreateOrder` goes on to begin a
transaction and insert the order (marshalling the event then fails on the NaN
and the transaction is rolled back). -/
theorem validate_accepts_nan_price :
    nanRequest.Validate = .ok () ∧
    nanRequest.TotalPrice.gt Float64.zero = false ∧
    (OrderService.CreateOrder sampleEnv CreateOrderFaults.none 5 emptyDB nanRequest).2.calls
      = [Call.begin, Call.insertOrder, Call.rollback] := by
  decide

/-- C4. For every store, every outcome of the store calls and every order id
absent from the orders table: `ConfirmOrder` returns an error and the committed
tables are unchanged; when `Begin` and the read of the order meet no driver
error, the returned error wraps `ErrOrderNotFound`. -/
theorem confirmOrder_missing (env : Env) (f : ConfirmOrderFaults) (now : Time) (db : DB)
    (orderID : Int) (h : ∀ o ∈ db.committed.orders, o.ID ≠ orderID) :
    (∃ err, (OrderService.ConfirmOrder env f now db orderID).1 = .error err ∧
      (f.begin = none → f.getByID = none → err.Is .ErrOrderNotFound = true)) ∧
    (OrderService.ConfirmOrder env f now db orderID).2.committed = db.committed := by
  obtain ⟨fb, fg, fu, fx, fc⟩ := f
  have hs := sqlSelectOrder_none db.committed orderID h
  unfold OrderService.ConfirmOrder
  cases fb with
  | some e => simp [DB.Begin]
  | none =>
    cases fg with
    | none => simp [DB.Begin, orderRepository.GetByID, Tx.Rollback, hs, Error.Is]
    | some e =>
      by_cases he : e = Error.sqlErrNoRows <;>
        simp [DB.Begin, orderRepository.GetByID, Tx.Rollback, he]

/-- Order 7 in the store that holds order 1 only: the error wraps
`ErrOrderNotFound` and nothing is committed. -/
theorem confirmOrder_missing_witness :
    (∀ o ∈ oneOrderDB.committed.orders, o.ID ≠ 7) ∧
    (∃ err, (OrderService.ConfirmOrder sampleEnv ConfirmOrderFaults.none 9 oneOrderDB 7).1
        = .error err ∧ err.Is .ErrOrderNotFound = true) ∧
    (OrderService.ConfirmOrder sampleEnv ConfirmOrderFaults.none 9 oneOrderDB 7).2.committed
      = oneOrderDB.committed := by
  have hw := confirmOrder_missing sampleEnv ConfirmOrderFaults.none 9 oneOrderDB 7
    (by decide)
  obtain ⟨⟨err, h1, h2⟩, h3⟩ := hw
  exact ⟨by decide, ⟨err, h1, h2 rfl rfl⟩, h3⟩

/-- C5. For every existing order id, every store and every outcome of the
store calls: if `ConfirmOrder` returns success, the committed orders are the old
ones with the rows of that id set to status "CONFIRMED" (and `updated_at` to the
transaction time), and the committed outbox is the old one plus one unprocessed
row with event type "OrderConfirmed", aggregate type "Order" and the decimal
string of the id as aggregate id; if the status update, the reading of the rows
affected, the outbox insert or the commit meets a driver error, `ConfirmOrder`
returns an error; and whenever it returns an error the committed tables are
unchanged. -/
theorem confirmOrder_atomic (env : Env) (f : ConfirmOrderFaults) (now : Time) (db : DB)
    (orderID : Int) (_hex : ∃ o ∈ db.committed.orders, o.ID = orderID) :
    ((OrderService.ConfirmOrder env f now db orderID).1 = .ok () →
      (OrderService.ConfirmOrder env f now db orderID).2.committed.orders
          = db.committed.orders.map (fun o =>
              if o.ID = orderID then { o with Status := "CONFIRMED", UpdatedAt := now } else o) ∧
      (∀ o ∈ (OrderService.ConfirmOrder env f now db orderID).2.committed.orders,
          o.ID = orderID → o.Status = "CONFIRMED") ∧
      ∃ msg : OutboxMessage,
        (OrderService.ConfirmOrder env f now db orderID).2.committed.outbox
            = db.committed.outbox ++ [msg] ∧
        msg.EventType = "OrderConfirmed" ∧ msg.AggregateType = "Order" ∧
        msg.AggregateID = FormatInt orderID ∧ msg.Processed = false) ∧
    ((f.update.exec ≠ none ∨ f.update.rowsAffected ≠ none ∨ f.insertOutbox ≠ none ∨
        f.commit ≠ none) →
      ∃ err, (OrderService.ConfirmOrder env f now db orderID).1 = .error err) ∧
    (∀ err, (OrderService.ConfirmOrder env f now db orderID).1 = .error err →
      (OrderService.ConfirmOrder env f now db orderID).2.committed = db.committed) := by
  obtain ⟨fb, fg, ⟨fe, fr⟩, fx, fc⟩ := f
  unfold OrderService.ConfirmOrder
  cases fb with
  | some e => simp [DB.Begin]
  | none =>
    cases fg with
    | some e =>
      by_cases he : e = Error.sqlErrNoRows <;>
        simp [DB.Begin, orderRepository.GetByID, Tx.Rollback, he]
    | none =>
      cases hsel : sqlSelectOrder db.committed orderID with
      | none => simp [DB.Begin, orderRepository.GetByID, Tx.Rollback, hsel]
      | some o =>
        have hne : ¬ ∀ a ∈ db.committed.orders, ¬ a.ID = orderID := by
          intro hall
          rw [sqlSelectOrder_none _ _ hall] at hsel
          cases hsel
        cases fe <;> cases fr <;> cases fx <;> cases fc <;>
          simp [DB.Begin, orderRepository.GetByID, Tx.Rollback, hsel, hne,
            orderRepository.UpdateStatus, NewOutboxMessage, outboxRepository.Create,
            Tx.Commit, sqlUpdateOrderStatus, sqlInsertOutbox] <;>
          cases env.jsonMarshal _ <;>
          simp [EventTypeOrderConfirmed, AggregateTypeOrder, OrderStatusConfirmed]
        intro a _
        by_cases ha : a.ID = orderID <;> simp [ha]

/-- Order 1 in the store that holds it: the confirmation succeeds, the order
is then CONFIRMED and the outbox has gained one "OrderConfirmed" row. -/
theorem confirmOrder_atomic_witness :
    (∃ o ∈ oneOrderDB.committed.orders, o.ID = 1) ∧
    (OrderService.ConfirmOrder sampleEnv ConfirmOrderFaults.none 9 oneOrderDB 1).1 = .ok () ∧
    (∀ o ∈ (OrderService.ConfirmOrder sampleEnv ConfirmOrderFaults.none 9 oneOrderDB
        1).2.committed.orders, o.ID = 1 → o.Status = "CONFIRMED") ∧
    ∃ msg : OutboxMessage,
      (OrderService.ConfirmOrder sampleEnv ConfirmOrderFaults.none 9 oneOrderDB
          1).2.committed.outbox = oneOrderDB.committed.outbox ++ [msg] ∧
      msg.EventType = "OrderConfirmed" := by
  have hex : ∃ o ∈ oneOrderDB.committed.orders, o.ID = 1 := by decide
  have hok : (OrderService.ConfirmOrder sampleEnv ConfirmOrderFaults.none 9 oneOrderDB 1).1
      = .ok () := by decide
  obtain ⟨_, h2, msg, h3, h4, _⟩ :=
    (confirmOrder_atomic sampleEnv ConfirmOrderFaults.none 9 oneOrderDB 1 hex).1 hok
  exact ⟨hex, hok, h2, msg, h3, h4⟩

/-! ## Outbox repository -/

/-- C3. For every store state (primary keys hold) and every id of an existing
unprocessed outbox row: the first `MarkAsProcessed(id)`, committed, succeeds and
leaves one unprocessed row less; a second `MarkAsProcessed(id)` fails with
`ErrAlreadyProcessed`; after both calls the number of unprocessed rows is one
less than before the first call. -/
theorem markAsProcessed_twice (db : DB) (id : Int) (t1 t2 : Time) (hwf : db.committed.WF)
    (hex : ∃ m ∈ db.committed.outbox, m.ID = id ∧ m.Processed = false) :
    (markCommitted t1 db id).1 = .ok () ∧
    unprocessedCount (markCommitted t1 db id).2 + 1 = unprocessedCount db ∧
    (markCommitted t2 (markCommitted t1 db id).2 id).1 = .error .ErrAlreadyProcessed ∧
    unprocessedCount (markCommitted t2 (markCommitted t1 db id).2 id).2 + 1
      = unprocessedCount db := by
  have hpos := sqlMarkProcessed_affected_pos db.committed t1 id hex
  have hle := sqlMarkProcessed_affected_le db.committed t1 id hwf.2
  have hcnt := sqlMarkProcessed_count db.committed t1 id
  have h1 := markCommitted_eq t1 db id
  have h2 := markCommitted_eq t2 (markCommitted t1 db id).2 id
  rw [if_neg hpos, if_neg hpos] at h1
  have hagain : (sqlMarkProcessed (markCommitted t1 db id).2.committed t2 id).2 = 0 := by
    rw [h1.2]; exact sqlMarkProcessed_again _ _ _ _
  rw [if_pos hagain, if_pos hagain] at h2
  have hc1 : unprocessedCount (markCommitted t1 db id).2 + 1 = unprocessedCount db := by
    unfold unprocessedCount
    rw [h1.2]
    omega
  refine ⟨h1.1, hc1, h2.1, ?_⟩
  unfold unprocessedCount at hc1 ⊢
  rw [h2.2]
  exact hc1

/-- Message 2 of the three-message store: the second call fails and two
unprocessed rows are left. -/
theorem markAsProcessed_twice_witness :
    threeMessagesDB.committed.WF ∧
    (∃ m ∈ threeMessagesDB.committed.outbox, m.ID = 2 ∧ m.Processed = false) ∧
    (markCommitted 21 (markCommitted 20 threeMessagesDB 2).2 2).1
      = .error .ErrAlreadyProcessed ∧
    unprocessedCount (markCommitted 21 (markCommitted 20 threeMessagesDB 2).2 2).2 + 1 = 3 := by
  have hw := markAsProcessed_twice threeMessagesDB 2 20 21 (by decide) (by decide)
  exact ⟨by decide, by decide, hw.2.2.1, hw.2.2.2⟩

/-! ## Relay: one message -/

/-- C10. For every message, world and outcome: `processMessage` makes exactly
one publish call, with key `aggregateType ++ "-" ++ aggregateId` and with the
message's payload as the value, unchanged.  In a poll cycle the messages so
published are rows of the committed outbox, each sent once, in batch order,
with its stored payload. -/
theorem processMessage_publishes_key_payload (f : ProcessFaults) (now : Time) (w : World)
    (msg : OutboxMessage) :
    (OutboxProcessor.processMessage f now w msg).2.sink.log
      = w.sink.log ++ [{ key := msg.AggregateType ++ "-" ++ msg.AggregateID,
                         value := msg.Payload, acked := f.publish.isNone }] ∧
    (∀ (p : OutboxProcessor) (g : CycleFaults),
      (p.processMessages g now w).sink.log
        = w.sink.log ++ (fetched g.fetch w.db p.batchSize).map (fun m =>
            ({ key := m.AggregateType ++ "-" ++ m.AggregateID, value := m.Payload,
               acked := (g.msg m.ID).publish.isNone } : PublishCall)) ∧
      ∀ m ∈ fetched g.fetch w.db p.batchSize, m ∈ w.db.committed.outbox) := by
  refine ⟨processMessage_log f now w msg, fun p g => ⟨?_, ?_⟩⟩
  · rw [processMessages_eq, processBatch_log]
    rfl
  · intro m hm
    exact ((mem_sqlUnprocessed _ _ _).mp (List.mem_of_mem_take (fetched_sub _ _ _ _ hm).2)).1

/-! ## Relay: poll cycles -/

/-- C6. Starting from a store state (primary keys hold) in which no outbox
row is processed, after any sequence of poll cycles, whatever the outcomes of
the publish calls and of the store calls: every outbox row whose processed flag
is true has a publish call with its key and payload that the sink acknowledged;
and for every key and payload there are at least as many acknowledged publish
calls as processed rows, so each processed row has an acknowledgement of its
own. -/
theorem relay_marks_only_acked (p : OutboxProcessor) (fs : List (CycleFaults × Time))
    (w : World) (hwf : w.db.committed.WF)
    (h0 : ∀ m ∈ w.db.committed.outbox, m.Processed = false) :
    (∀ m ∈ (runCycles p fs w).db.committed.outbox, m.Processed = true →
      1 ≤ ackedCount (runCycles p fs w).sink (messageKey m) m.Payload) ∧
    (∀ key value, processedCount (runCycles p fs w).db key value
      ≤ ackedCount (runCycles p fs w).sink key value) := by
  constructor
  · intro m hm hp
    apply ackedCount_pos
    refine runCycles_delivered p fs w hwf ?_ m hm hp
    intro m' hm' hp'
    rw [h0 m' hm'] at hp'
    cases hp'
  · apply runCycles_accounted p fs w hwf
    intro key value
    rw [processedCount_zero w.db key value h0]
    exact Nat.zero_le _

/-- The three-message store after a cycle whose commits all fail and a cycle
without errors: the oldest message is processed, and was acknowledged. -/
theorem relay_marks_only_acked_witness :
    threeMessagesDB.committed.WF ∧
    (∀ m ∈ threeMessagesDB.committed.outbox, m.Processed = false) ∧
    (∃ m ∈ (runCycles sampleRelay [(commitFails, 20), (CycleFaults.none, 22)]
        ⟨threeMessagesDB, ⟨[]⟩⟩).db.committed.outbox, m.ID = 1 ∧ m.Processed = true ∧
      1 ≤ ackedCount (runCycles sampleRelay [(commitFails, 20), (CycleFaults.none, 22)]
        ⟨threeMessagesDB, ⟨[]⟩⟩).sink (messageKey m) m.Payload) := by
  refine ⟨by decide, by decide, ?_⟩
  refine ⟨{ sampleMessage 1 10 with Processed := true, ProcessedAt := some 22 }, by decide,
    rfl, rfl, ?_⟩
  exact (relay_marks_only_acked sampleRelay [(commitFails, 20), (CycleFaults.none, 22)]
    ⟨threeMessagesDB, ⟨[]⟩⟩ (by decide) (by decide)).1 _ (by decide) rfl


theorem sqlMarkProcessed_noop (t : Tables) (now : Time) (id : Int)
    (h : ¬ ∃ row ∈ t.outbox, row.ID = id ∧ row.Processed = false) :
    (sqlMarkProcessed t now id).1 = t ∧ (sqlMarkProcessed t now id).2 = 0 := by
  have hall : ∀ row ∈ t.outbox, ¬ (row.ID = id ∧ row.Processed = false) :=
    fun row hrow hc => h ⟨row, hrow, hc⟩
  constructor
  · have hmap : t.outbox.map (fun m => if m.ID = id ∧ m.Processed = false then
        { m with Processed := true, ProcessedAt := some now } else m) = t.outbox := by
      conv_rhs => rw [← List.map_id t.outbox]
      apply List.map_congr_left
      intro row hrow
      simp [hall row hrow]
    simp only [sqlMarkProcessed, hmap]
  · simp only [sqlMarkProcessed, List.length_eq_zero, List.filter_eq_nil_iff]
    intro row hrow
    simpa using hall row hrow

/-- C20. On a store without driver errors `MarkAsProcessed(id)` succeeds if
and only if a row with that id exists and is unprocessed; otherwise, and so for
every id that is the id of no row, it returns `ErrAlreadyProcessed` (which is
not `ErrOutboxMessageNotFound`) and the transaction's tables are unchanged.
With driver errors: the committed tables are never touched, and when reading
the rows affected does not fail, every error leaves the transaction's tables
unchanged. -/
theorem markAsProcessed_iff (now : Time) (db : DB) (tx : Tx) (id : Int) :
    ((outboxRepository.MarkAsProcessed ExecFaults.none now db tx id).1 = .ok () ↔
      ∃ row ∈ tx.work.outbox, row.ID = id ∧ row.Processed = false) ∧
    ((¬ ∃ row ∈ tx.work.outbox, row.ID = id ∧ row.Processed = false) →
      (outboxRepository.MarkAsProcessed ExecFaults.none now db tx id).1
          = .error .ErrAlreadyProcessed ∧
      (outboxRepository.MarkAsProcessed ExecFaults.none now db tx id).2.2 = tx ∧
      (outboxRepository.MarkAsProcessed ExecFaults.none now db tx id).2.1
          = { db with calls := db.calls ++ [Call.markAsProcessed] }) ∧
    ((∀ row ∈ tx.work.outbox, row.ID ≠ id) →
      (outboxRepository.MarkAsProcessed ExecFaults.none now db tx id).1
          = .error .ErrAlreadyProcessed ∧
      (outboxRepository.MarkAsProcessed ExecFaults.none now db tx id).1
          ≠ .error .ErrOutboxMessageNotFound ∧
      (outboxRepository.MarkAsProcessed ExecFaults.none now db tx id).2.2 = tx) ∧
    (∀ f : ExecFaults,
      (outboxRepository.MarkAsProcessed f now db tx id).2.1.committed = db.committed ∧
      (f.rowsAffected = none → ∀ err,
        (outboxRepository.MarkAsProcessed f now db tx id).1 = .error err →
        (outboxRepository.MarkAsProcessed f now db tx id).2.2 = tx)) := by
  have hfail : (¬ ∃ row ∈ tx.work.outbox, row.ID = id ∧ row.Processed = false) →
      (outboxRepository.MarkAsProcessed ExecFaults.none now db tx id).1
          = .error .ErrAlreadyProcessed ∧
      (outboxRepository.MarkAsProcessed ExecFaults.none now db tx id).2.2 = tx ∧
      (outboxRepository.MarkAsProcessed ExecFaults.none now db tx id).2.1
          = { db with calls := db.calls ++ [Call.markAsProcessed] } := by
    intro h
    obtain ⟨h1, h2⟩ := sqlMarkProcessed_noop tx.work now id h
    simp [outboxRepository.MarkAsProcessed, ExecFaults.none, h1, h2]
  refine ⟨?_, hfail, ?_, ?_⟩
  · constructor
    · intro hok
      by_contra hne
      rw [(hfail hne).1] at hok
      cases hok
    · intro hex
      have hpos := sqlMarkProcessed_affected_pos tx.work now id hex
      simp [outboxRepository.MarkAsProcessed, ExecFaults.none, hpos]
  · intro hno
    have hne : ¬ ∃ row ∈ tx.work.outbox, row.ID = id ∧ row.Processed = false := by
      rintro ⟨row, hrow, hid, _⟩
      exact hno row hrow hid
    have := hfail hne
    refine ⟨this.1, ?_, this.2.1⟩
    rw [this.1]
    simp
  · intro f
    obtain ⟨fe, fr⟩ := f
    by_cases h0 : (sqlMarkProcessed tx.work now id).2 = 0
    · have hne : ¬ ∃ row ∈ tx.work.outbox, row.ID = id ∧ row.Processed = false :=
        fun hex => sqlMarkProcessed_affected_pos tx.work now id hex h0
      have h1 := (sqlMarkProcessed_noop tx.work now id hne).1
      cases fe <;> cases fr <;> simp [outboxRepository.MarkAsProcessed, h0, h1]
    · cases fe <;> cases fr <;> simp [outboxRepository.MarkAsProcessed, h0]

/-! ## Relay: the same message processed twice -/

theorem sqlMarkProcessed_mem (t : Tables) (now : Time) (msg : OutboxMessage)
    (hm : msg ∈ t.outbox) (hp : msg.Processed = false) :
    { msg with Processed := true, ProcessedAt := some now }
      ∈ (sqlMarkProcessed t now msg.ID).1.outbox := by
  simp only [sqlMarkProcessed, List.mem_map]
  exact ⟨msg, hm, by simp [hp]⟩

theorem processMessage_alreadyProcessed (now : Time) (w : World) (msg : OutboxMessage)
    (h0 : (sqlMarkProcessed w.db.committed now msg.ID).2 = 0) :
    (OutboxProcessor.processMessage ProcessFaults.none now w msg).1
      = .error (.wrapped "failed to mark as processed" .ErrAlreadyProcessed) ∧
    (OutboxProcessor.processMessage ProcessFaults.none now w msg).2.db.committed
      = w.db.committed := by
  unfold OutboxProcessor.processMessage
  simp [KafkaPublisher.Publish, DB.Begin, outboxRepository.MarkAsProcessed, Tx.Commit,
    Tx.Rollback, ProcessFaults.none, ExecFaults.none, h0]

/-- C18. For every world and every unprocessed row of the committed outbox,
processed twice in a row from the same snapshot with an acknowledging sink and
no store error: the first pass returns success; the second returns an error
wrapping `ErrAlreadyProcessed`; the sink has received the key and payload
twice, acknowledged both times; the committed tables at the end are those left
by the first pass, with the row processed and `processed_at` the time of the
first pass (and, primary keys holding, it is the only row of that id). -/
theorem double_publish_single_mark (w : World) (msg : OutboxMessage) (t1 t2 : Time)
    (hm : msg ∈ w.db.committed.outbox) (hp : msg.Processed = false) :
    (OutboxProcessor.processMessage ProcessFaults.none t1 w msg).1 = .ok () ∧
    (∃ err,
      (OutboxProcessor.processMessage ProcessFaults.none t2
        (OutboxProcessor.processMessage ProcessFaults.none t1 w msg).2 msg).1 = .error err ∧
      err.Is .ErrAlreadyProcessed = true) ∧
    (OutboxProcessor.processMessage ProcessFaults.none t2
        (OutboxProcessor.processMessage ProcessFaults.none t1 w msg).2 msg).2.sink.log
      = w.sink.log ++
          [{ key := messageKey msg, value := msg.Payload, acked := true },
           { key := messageKey msg, value := msg.Payload, acked := true }] ∧
    (OutboxProcessor.processMessage ProcessFaults.none t2
        (OutboxProcessor.processMessage ProcessFaults.none t1 w msg).2 msg).2.db.committed
      = (sqlMarkProcessed w.db.committed t1 msg.ID).1 ∧
    { msg with Processed := true, ProcessedAt := some t1 }
      ∈ (OutboxProcessor.processMessage ProcessFaults.none t2
          (OutboxProcessor.processMessage ProcessFaults.none t1 w msg).2 msg).2.db.committed.outbox ∧
    (w.db.committed.WF →
      ∀ row ∈ (OutboxProcessor.processMessage ProcessFaults.none t2
          (OutboxProcessor.processMessage ProcessFaults.none t1 w msg).2
            msg).2.db.committed.outbox,
        row.ID = msg.ID → row = { msg with Processed := true, ProcessedAt := some t1 }) := by
  have hpos := sqlMarkProcessed_affected_pos w.db.committed t1 msg.ID ⟨msg, hm, rfl, hp⟩
  obtain ⟨h1ok, h1c⟩ := processMessage_noFaults t1 w msg hpos
  have h0 : (sqlMarkProcessed
      (OutboxProcessor.processMessage ProcessFaults.none t1 w msg).2.db.committed t2
        msg.ID).2 = 0 := by
    rw [h1c]
    exact sqlMarkProcessed_again _ _ _ _
  obtain ⟨h2err, h2c⟩ := processMessage_alreadyProcessed t2
    (OutboxProcessor.processMessage ProcessFaults.none t1 w msg).2 msg h0
  have hfinal := h2c.trans h1c
  refine ⟨h1ok, ⟨_, h2err, by simp [Error.Is]⟩, ?_, hfinal, ?_, ?_⟩
  · rw [processMessage_log, processMessage_log]
    simp [ProcessFaults.none]
  · rw [hfinal]
    exact sqlMarkProcessed_mem _ _ _ hm hp
  · intro hwf row hrow hid
    rw [hfinal] at hrow
    simp only [sqlMarkProcessed, List.mem_map] at hrow
    obtain ⟨row0, hrow0, rfl⟩ := hrow
    have hid0 : row0.ID = msg.ID := by
      by_cases hc : row0.ID = msg.ID ∧ row0.Processed = false
      · exact hc.1
      · simpa [hc] using hid
    have : row0 = msg := List.inj_on_of_nodup_map hwf.2 hrow0 hm hid0
    subst this
    simp [hp]

/-- The oldest message of the three-message store, processed at times 20 and
21: the second pass fails and the row keeps `processed_at` = 20. -/
theorem double_publish_single_mark_witness :
    sampleMessage 1 10 ∈ threeMessagesDB.committed.outbox ∧
    (sampleMessage 1 10).Processed = false ∧
    (∃ err,
      (OutboxProcessor.processMessage ProcessFaults.none 21
        (OutboxProcessor.processMessage ProcessFaults.none 20 ⟨threeMessagesDB, ⟨[]⟩⟩
          (sampleMessage 1 10)).2 (sampleMessage 1 10)).1 = .error err ∧
      err.Is .ErrAlreadyProcessed = true) ∧
    { sampleMessage 1 10 with Processed := true, ProcessedAt := some 20 }
      ∈ (OutboxProcessor.processMessage ProcessFaults.none 21
          (OutboxProcessor.processMessage ProcessFaults.none 20 ⟨threeMessagesDB, ⟨[]⟩⟩
            (sampleMessage 1 10)).2 (sampleMessage 1 10)).2.db.committed.outbox := by
  have hw := double_publish_single_mark ⟨threeMessagesDB, ⟨[]⟩⟩ (sampleMessage 1 10) 20 21
    (by decide) rfl
  exact ⟨by decide, rfl, hw.2.1, hw.2.2.2.2.1⟩

/-! ## Outbox repository: `Create` -/

/-- C15, at a message whose `Processed` field is true: the inserted row has
`processed = true`, as `Create` passes the field of the message on. -/
theorem outboxCreate_processed_counterexample :
    (outboxRepository.Create none emptyDB { work := emptyDB.committed, now := 5 }
        processedMessage).2.2.work.outbox
      = [{ processedMessage with ID := 1, CreatedAt := 5, ProcessedAt := none }] ∧
    ¬ (∀ row ∈ (outboxRepository.Create none emptyDB { work := emptyDB.committed, now := 5 }
        processedMessage).2.2.work.outbox, row.Processed = false) := by
  decide

/-- C15, amended. For every message passed to `Create` on a store without
driver error: one row is appended to the outbox, with the next identity, the
transaction's time as `created_at`, no `processed_at`, the message's columns
and the message's own `Processed` flag, which is false for every message built
by `NewOutboxMessage`; the call returns the message with that identity and
`created_at`.  With a driver error nothing is inserted. -/
theorem outboxCreate_inserts (db : DB) (tx : Tx) (message : OutboxMessage) :
    (outboxRepository.Create none db tx message).1
      = .ok { message with ID := db.outboxSeq + 1, CreatedAt := tx.now } ∧
    (outboxRepository.Create none db tx message).2.2.work.outbox
      = tx.work.outbox ++
          [{ ID := db.outboxSeq + 1, AggregateType := message.AggregateType,
             AggregateID := message.AggregateID, EventType := message.EventType,
             Payload := message.Payload, CreatedAt := tx.now, ProcessedAt := none,
             Processed := message.Processed }] ∧
    (outboxRepository.Create none db tx message).2.2.work.orders = tx.work.orders ∧
    (∀ (env : Env) (aggregateType aggregateID eventType : String) (payload : Event),
      NewOutboxMessage env aggregateType aggregateID eventType payload = .ok message →
      message.Processed = false ∧ message.ProcessedAt = none) ∧
    (∀ err, ∃ err', (outboxRepository.Create (some err) db tx message).1 = .error err' ∧
      (outboxRepository.Create (some err) db tx message).2.2 = tx) := by
  refine ⟨rfl, rfl, rfl, ?_, fun err => ⟨_, rfl, rfl⟩⟩
  intro env a b c payload h
  unfold NewOutboxMessage at h
  cases hm : env.jsonMarshal payload with
  | error e => rw [hm] at h; cases h
  | ok bytes =>
    rw [hm] at h
    simp only [Except.ok.injEq] at h
    subst h
    exact ⟨rfl, rfl⟩

/-! ## Frame of `MarkAsProcessed` and of a poll cycle -/

/-- C11. For every store state and every limit of at least 0, on a store
without driver error and in whatever order it returns rows of equal
`created_at`, `GetUnprocessed(limit)` returns a list `result` and
leaves the tables as they are, where for some list `rest`: `result ++ rest` is
a rearrangement of the rows with `processed = false`, sorted by `created_at`
ascending, and `result` is its first `limit` elements.  So `result` has length
min(limit, number of unprocessed rows), holds unprocessed rows only, and every
unprocessed row left out is not older than any row returned. -/
theorem getUnprocessed_oldest_first (q : QueryFaults) (db : DB) (limit : Int)
    (hq : q.succeeds) (hl : 0 ≤ limit) :
    ∃ result rest : List OutboxMessage,
      outboxRepository.GetUnprocessed q db limit
        = (.ok result, { db with calls := db.calls ++ [Call.selectUnprocessed] }) ∧
      (result ++ rest).Perm (db.committed.outbox.filter (fun m => !m.Processed)) ∧
      (result ++ rest).Sorted (fun a b => a.CreatedAt ≤ b.CreatedAt) ∧
      result = (result ++ rest).take limit.toNat ∧
      result.length = min limit.toNat (unprocessedCount db) ∧
      (∀ m ∈ result, m ∈ db.committed.outbox ∧ m.Processed = false) ∧
      (∀ x ∈ rest, x ∈ db.committed.outbox ∧ x.Processed = false ∧
        ∀ y ∈ result, y.CreatedAt ≤ x.CreatedAt) := by
  have hnl : ¬ limit < 0 := by omega
  have hsorted : (sqlUnprocessed q.tie db.committed).Sorted createdBefore :=
    sqlUnprocessed_sorted _ _
  have hsplit := List.take_append_drop limit.toNat (sqlUnprocessed q.tie db.committed)
  refine ⟨(sqlUnprocessed q.tie db.committed).take limit.toNat,
    (sqlUnprocessed q.tie db.committed).drop limit.toNat, ?_, ?_, ?_, ?_, ?_, ?_, ?_⟩
  · obtain ⟨h1, h2, h3⟩ := hq
    simp [outboxRepository.GetUnprocessed, h1, h2, h3, hnl]
  · rw [hsplit]
    exact List.perm_insertionSort _ _
  · rw [hsplit]
    exact hsorted
  · rw [hsplit]
  · rw [List.length_take, length_sqlUnprocessed]
  · intro m hm
    exact (mem_sqlUnprocessed _ _ _).mp (List.mem_of_mem_take hm)
  · intro x hx
    have hx' := (mem_sqlUnprocessed _ _ _).mp (List.mem_of_mem_drop hx)
    refine ⟨hx'.1, hx'.2, ?_⟩
    intro y hy
    rw [← hsplit] at hsorted
    exact (List.pairwise_append.mp hsorted).2.2 y hy x hx

/-- The three-message store and limit 2: the two oldest messages, oldest
first. -/
theorem getUnprocessed_oldest_first_witness :
    QueryFaults.none.succeeds ∧ (0 : Int) ≤ 2 ∧
    ∃ result rest : List OutboxMessage,
      (outboxRepository.GetUnprocessed QueryFaults.none threeMessagesDB 2).1 = .ok result ∧
      result = [sampleMessage 1 10, sampleMessage 2 11] ∧
      (∀ x ∈ rest, ∀ y ∈ result, y.CreatedAt ≤ x.CreatedAt) := by
  refine ⟨by decide, by decide, ?_⟩
  obtain ⟨result, rest, h1, _, _, _, _, _, h7⟩ :=
    getUnprocessed_oldest_first QueryFaults.none threeMessagesDB 2 (by decide) (by decide)
  have hres : (outboxRepository.GetUnprocessed QueryFaults.none threeMessagesDB 2).1
      = .ok result := by rw [h1]
  have hval : (outboxRepository.GetUnprocessed QueryFaults.none threeMessagesDB 2).1
      = .ok [sampleMessage 1 10, sampleMessage 2 11] := by decide
  have heq : result = [sampleMessage 1 10, sampleMessage 2 11] := by
    rw [hval] at hres
    exact (Except.ok.inj hres).symm
  exact ⟨result, rest, hres, heq, fun x hx => (h7 x hx).2.2⟩

/-! ## Relay: every message of the batch is attempted -/

theorem processMessage_success_marks (f : ProcessFaults) (now : Time) (w : World)
    (msg : OutboxMessage) (hp : f.publish = none) (hb : f.begin = none)
    (he : f.mark.exec = none) (hr : f.mark.rowsAffected = none) (hc : f.commit = none) :
    ∀ row ∈ (OutboxProcessor.processMessage f now w msg).2.db.committed.outbox,
      row.ID = msg.ID → row.Processed = true := by
  obtain ⟨fp, fb, ⟨fe, fr⟩, fc⟩ := f
  simp only at hp hb he hr hc
  subst hp hb he hr hc
  change ∀ row ∈
      (OutboxProcessor.processMessage ProcessFaults.none now w msg).2.db.committed.outbox,
    row.ID = msg.ID → row.Processed = true
  intro row hrow hid
  by_cases h0 : (sqlMarkProcessed w.db.committed now msg.ID).2 = 0
  · rw [(processMessage_alreadyProcessed now w msg h0).2] at hrow
    by_contra hnp
    have hfalse : row.Processed = false := by simpa using hnp
    exact sqlMarkProcessed_affected_pos w.db.committed now msg.ID ⟨row, hrow, hid, hfalse⟩ h0
  · rw [(processMessage_noFaults now w msg h0).2] at hrow
    simp only [sqlMarkProcessed, List.mem_map] at hrow
    obtain ⟨row0, _, rfl⟩ := hrow
    by_cases hc : row0.ID = msg.ID ∧ row0.Processed = false
    · simp [hc]
    · rw [if_neg hc] at hid ⊢
      by_contra hnp
      exact hc ⟨hid, by simpa using hnp⟩

theorem processBatch_stays_processed (f : CycleFaults) (now : Time) (id : Int) :
    ∀ (msgs : List OutboxMessage) (w : World),
      (∀ row ∈ w.db.committed.outbox, row.ID = id → row.Processed = true) →
      ∀ row ∈ (processBatch f now w msgs).db.committed.outbox,
        row.ID = id → row.Processed = true
  | [], w, h => by simpa [processBatch] using h
  | msg :: rest, w, h => by
    rw [processBatch]
    apply processBatch_stays_processed f now id rest
    intro row' hrow' hid
    obtain ⟨row, hrow, h1, _, _, h4⟩ := processMessage_rows (f.msg msg.ID) now w msg row' hrow'
    rcases h4 with rfl | ⟨_, _, h6, _⟩
    · exact h row' hrow hid
    · exact h6

theorem processBatch_marks (f : CycleFaults) (now : Time) (m : OutboxMessage)
    (hp : (f.msg m.ID).publish = none) (hb : (f.msg m.ID).begin = none)
    (he : (f.msg m.ID).mark.exec = none) (hr : (f.msg m.ID).mark.rowsAffected = none)
    (hc : (f.msg m.ID).commit = none) :
    ∀ (msgs : List OutboxMessage) (w : World), m ∈ msgs →
      ∀ row ∈ (processBatch f now w msgs).db.committed.outbox,
        row.ID = m.ID → row.Processed = true
  | [], _, hm => by cases hm
  | msg :: rest, w, hm => by
    rw [processBatch]
    rcases List.mem_cons.mp hm with rfl | hrest
    · exact processBatch_stays_processed f now m.ID rest _
        (processMessage_success_marks _ now w m hp hb he hr hc)
    · exact processBatch_marks f now m hp hb he hr hc rest _ hrest

/-- C12. In one poll cycle, whatever the outcomes: the batch has at most
`batchSize` messages, oldest first; the sink receives exactly one publish call
per message of the batch, in batch order, whether or not earlier messages
failed; and every message of the batch whose own publish call is acknowledged
and whose own mark-as-processed transaction meets no driver error is processed
in the committed outbox after the cycle, whatever happened to the others. -/
theorem relay_attempts_whole_batch (p : OutboxProcessor) (f : CycleFaults) (now : Time)
    (w : World) :
    (fetched f.fetch w.db p.batchSize).length ≤ p.batchSize.toNat ∧
    (fetched f.fetch w.db p.batchSize).Sorted (fun a b => a.CreatedAt ≤ b.CreatedAt) ∧
    (p.processMessages f now w).sink.log
      = w.sink.log ++ (fetched f.fetch w.db p.batchSize).map (fun m =>
          ({ key := messageKey m, value := m.Payload,
             acked := (f.msg m.ID).publish.isNone } : PublishCall)) ∧
    (∀ m ∈ fetched f.fetch w.db p.batchSize,
      (f.msg m.ID).publish = none → (f.msg m.ID).begin = none →
      (f.msg m.ID).mark.exec = none → (f.msg m.ID).mark.rowsAffected = none →
      (f.msg m.ID).commit = none →
      (∃ row ∈ (p.processMessages f now w).db.committed.outbox, row.ID = m.ID) ∧
      ∀ row ∈ (p.processMessages f now w).db.committed.outbox,
        row.ID = m.ID → row.Processed = true) := by
  refine ⟨?_, ?_, ?_, ?_⟩
  · unfold fetched
    rcases (getUnprocessed_cases f.fetch w.db p.batchSize).2 with ⟨_, h⟩ | ⟨err, h⟩
    · rw [h]
      simp only [List.length_take]
      exact Nat.min_le_left _ _
    · rw [h]
      simp
  · unfold fetched
    rcases (getUnprocessed_cases f.fetch w.db p.batchSize).2 with ⟨_, h⟩ | ⟨err, h⟩
    · rw [h]
      exact (sqlUnprocessed_sorted _ _).sublist (List.take_sublist _ _)
    · rw [h]
      exact List.sorted_nil
  · rw [processMessages_eq, processBatch_log]
  · intro m hm hp hb he hr hc
    constructor
    · have hmem := ((mem_sqlUnprocessed _ _ _).mp
        (List.mem_of_mem_take (fetched_sub _ _ _ _ hm).2)).1
      have hid : m.ID ∈ (p.processMessages f now w).db.committed.outbox.map (fun m => m.ID) := by
        rw [processMessages_eq, processBatch_ids]
        exact List.mem_map_of_mem _ hmem
      obtain ⟨row, hrow, hrid⟩ := List.mem_map.mp hid
      exact ⟨row, hrow, hrid⟩
    · rw [processMessages_eq]
      exact processBatch_marks f now m hp hb he hr hc _ _ hm

/-! ## Order service: the calls of `ConfirmOrder` -/

/-- C19, at order id 7 in the store that holds order 1 only: `ConfirmOrder`
begins a transaction, then reads the order, then rolls back; the calls are not
the single read the claim describes. -/
theorem confirmOrder_begins_first_counterexample :
    (OrderService.ConfirmOrder sampleEnv ConfirmOrderFaults.none 9 oneOrderDB 7).2.calls
      = oneOrderDB.calls ++ [Call.begin, Call.selectOrder, Call.rollback] ∧
    (OrderService.ConfirmOrder sampleEnv ConfirmOrderFaults.none 9 oneOrderDB 7).2.calls
      ≠ oneOrderDB.calls ++ [Call.selectOrder] ∧
    (OrderService.ConfirmOrder sampleEnv ConfirmOrderFaults.none 9 oneOrderDB 7).1
      = .error (.wrapped "failed to get order" .ErrOrderNotFound) := by
  decide

/-- C19, amended. `ConfirmOrder` begins the transaction before it reads the
order: `Begin` is its first store call under every outcome.  When `Begin` and
the read meet no driver error: for an order id that does not exist it fails
with an error wrapping `ErrOrderNotFound` after the calls begin, read order,
rollback, and nothing is committed; and when it succeeds its calls are begin,
read order, update status, append event, commit. -/
theorem confirmOrder_call_sequence (env : Env) (f : ConfirmOrderFaults) (now : Time) (db : DB)
    (orderID : Int) (hb : f.begin = none) (hg : f.getByID = none) :
    ((∀ o ∈ db.committed.orders, o.ID ≠ orderID) →
      (OrderService.ConfirmOrder env f now db orderID).1
          = .error (.wrapped "failed to get order" .ErrOrderNotFound) ∧
      (OrderService.ConfirmOrder env f now db orderID).2.calls
          = db.calls ++ [Call.begin, Call.selectOrder, Call.rollback] ∧
      (OrderService.ConfirmOrder env f now db orderID).2.committed = db.committed) ∧
    ((OrderService.ConfirmOrder env f now db orderID).1 = .ok () →
      (OrderService.ConfirmOrder env f now db orderID).2.calls
          = db.calls ++ [Call.begin, Call.selectOrder, Call.updateOrderStatus,
              Call.insertOutbox, Call.commit]) ∧
    (∀ g : ConfirmOrderFaults, ∃ rest,
      (OrderService.ConfirmOrder env g now db orderID).2.calls
        = db.calls ++ Call.begin :: rest) := by
  refine ⟨?_, ?_, ?_⟩
  · intro habs
    obtain ⟨fb, fg, fu, fx, fc⟩ := f
    simp only at hb hg
    subst hb hg
    have hs := sqlSelectOrder_none db.committed orderID habs
    unfold OrderService.ConfirmOrder
    simp [DB.Begin, orderRepository.GetByID, Tx.Rollback, hs]
  · obtain ⟨fb, fg, ⟨fe, fr⟩, fx, fc⟩ := f
    simp only at hb hg
    subst hb hg
    unfold OrderService.ConfirmOrder
    cases hsel : sqlSelectOrder db.committed orderID with
    | none => simp [DB.Begin, orderRepository.GetByID, Tx.Rollback, hsel]
    | some o =>
      have hne : ¬ ∀ a ∈ db.committed.orders, ¬ a.ID = orderID := by
        intro hall
        rw [sqlSelectOrder_none _ _ hall] at hsel
        cases hsel
      cases fe <;> cases fr <;> cases fx <;> cases fc <;>
        simp [DB.Begin, orderRepository.GetByID, Tx.Rollback, hsel, hne,
          orderRepository.UpdateStatus, NewOutboxMessage, outboxRepository.Create,
          Tx.Commit, sqlUpdateOrderStatus, sqlInsertOutbox] <;>
        cases env.jsonMarshal _ <;>
        simp
  · intro g
    obtain ⟨fb, fg, ⟨fe, fr⟩, fx, fc⟩ := g
    unfold OrderService.ConfirmOrder
    cases fb with
    | some e => simp [DB.Begin]
    | none =>
      cases fg with
      | some e =>
        by_cases he : e = Error.sqlErrNoRows <;>
          simp [DB.Begin, orderRepository.GetByID, Tx.Rollback, he]
      | none =>
        cases hsel : sqlSelectOrder db.committed orderID with
        | none => simp [DB.Begin, orderRepository.GetByID, Tx.Rollback, hsel]
        | some o =>
          have hne : ¬ ∀ a ∈ db.committed.orders, ¬ a.ID = orderID := by
            intro hall
            rw [sqlSelectOrder_none _ _ hall] at hsel
            cases hsel
          cases fe <;> cases fr <;> cases fx <;> cases fc <;>
            simp [DB.Begin, orderRepository.GetByID, Tx.Rollback, hsel, hne,
              orderRepository.UpdateStatus, NewOutboxMessage, outboxRepository.Create,
              Tx.Commit, sqlUpdateOrderStatus, sqlInsertOutbox] <;>
            cases env.jsonMarshal _ <;>
            simp

/-- Order 1 in the store that holds it, without driver errors: the five calls
of a successful confirmation, `Begin` first. -/
theorem confirmOrder_call_sequence_witness :
    ConfirmOrderFaults.none.begin = none ∧ ConfirmOrderFaults.none.getByID = none ∧
    (OrderService.ConfirmOrder sampleEnv ConfirmOrderFaults.none 9 oneOrderDB 1).2.calls
      = oneOrderDB.calls ++ [Call.begin, Call.selectOrder, Call.updateOrderStatus,
          Call.insertOutbox, Call.commit] :=
  ⟨rfl, rfl,
    (confirmOrder_call_sequence sampleEnv ConfirmOrderFaults.none 9 oneOrderDB 1 rfl rfl).2.1
      (by decide)⟩

/-! ## Outbox state invariant -/

theorem newOutboxMessage_unprocessed (env : Env) (a b c : String) (payload : Event)
    (message : OutboxMessage) (h : NewOutboxMessage env a b c payload = .ok message) :
    message.Processed = false := by
  unfold NewOutboxMessage at h
  cases hm : env.jsonMarshal payload with
  | error e => rw [hm] at h; cases h
  | ok bytes =>
    rw [hm] at h
    simp only [Except.ok.injEq] at h
    subst h
    rfl

theorem outboxOp_step (env : Env) (op : OutboxOp) (s : Session) :
    ∃ rows' added : List OutboxMessage,
      (op.apply env s).tx.work.outbox = rows' ++ added ∧
      List.Forall₂ (rowStep op) s.tx.work.outbox rows' ∧
      (∀ m ∈ added, m.Processed = false ∧ m.ProcessedAt = none) ∧
      (added ≠ [] → ∃ fault a b c payload, op = .create fault a b c payload) := by
  cases op with
  | create fault a b c payload =>
    have hsame : List.Forall₂ (rowStep (.create fault a b c payload)) s.tx.work.outbox
        s.tx.work.outbox := by
      rw [List.forall₂_same]
      intro row _
      rfl
    cases hn : NewOutboxMessage env a b c payload with
    | error e =>
      exact ⟨s.tx.work.outbox, [], by simp [OutboxOp.apply, hn], hsame, by simp, by simp⟩
    | ok message =>
      have hp := newOutboxMessage_unprocessed env a b c payload message hn
      cases fault with
      | some e =>
        exact ⟨s.tx.work.outbox, [], by simp [OutboxOp.apply, hn, outboxRepository.Create],
          hsame, by simp, by simp⟩
      | none =>
        refine ⟨s.tx.work.outbox, [(sqlInsertOutbox s.tx.work (s.db.outboxSeq + 1) s.tx.now
          message.AggregateType message.AggregateID message.EventType message.Payload
          message.Processed).2], ?_, hsame, ?_, fun _ => ⟨_, _, _, _, _, rfl⟩⟩
        · simp [OutboxOp.apply, hn, outboxRepository.Create, sqlInsertOutbox]
        · intro m hm
          rw [List.mem_singleton] at hm
          subst hm
          exact ⟨hp, rfl⟩
  | mark f now id =>
    have hsame : List.Forall₂ (rowStep (.mark f now id)) s.tx.work.outbox
        s.tx.work.outbox := by
      rw [List.forall₂_same]
      intro row _
      exact Or.inl rfl
    have hmark : List.Forall₂ (rowStep (.mark f now id)) s.tx.work.outbox
        (sqlMarkProcessed s.tx.work now id).1.outbox := by
      simp only [sqlMarkProcessed]
      rw [List.forall₂_map_right_iff, List.forall₂_same]
      intro row _
      by_cases hc : row.ID = id ∧ row.Processed = false
      · rw [if_pos hc]
        exact Or.inr ⟨hc.1, hc.2, rfl⟩
      · rw [if_neg hc]
        exact Or.inl rfl
    refine ⟨(OutboxOp.apply env (.mark f now id) s).tx.work.outbox, [], by simp, ?_,
      by simp, by simp⟩
    obtain ⟨fe, fr⟩ := f
    by_cases h0 : (sqlMarkProcessed s.tx.work now id).2 = 0 <;>
      cases fe <;> cases fr <;>
      simp only [OutboxOp.apply, outboxRepository.MarkAsProcessed, h0, if_true, if_false] <;>
      first | exact hsame | exact hmark

theorem processedAtIff_step (op : OutboxOp) (rows rows' added : List OutboxMessage)
    (hinv : processedAtIff rows) (hstep : List.Forall₂ (rowStep op) rows rows')
    (hadd : ∀ m ∈ added, m.Processed = false ∧ m.ProcessedAt = none) :
    processedAtIff (rows' ++ added) := by
  intro m hm
  rcases List.mem_append.mp hm with h | h
  · obtain ⟨row, hrow, hr⟩ : ∃ row ∈ rows, rowStep op row m := by
      clear hm hadd hinv
      induction hstep with
      | nil => cases h
      | cons hab _ ih =>
        rcases List.mem_cons.mp h with rfl | h'
        · exact ⟨_, List.mem_cons_self _ _, hab⟩
        · obtain ⟨row, hrow, hr⟩ := ih h'
          exact ⟨row, List.mem_cons_of_mem _ hrow, hr⟩
    cases op with
    | create fault a b c payload =>
      have : m = row := hr
      rw [this]
      exact hinv row hrow
    | mark f now id =>
      rcases hr with rfl | ⟨_, _, rfl⟩
      · exact hinv _ hrow
      · simp
  · obtain ⟨h1, h2⟩ := hadd m h
    simp [h1, h2]

theorem runOutboxOps_inv (env : Env) :
    ∀ (ops : List OutboxOp) (s : Session), processedAtIff s.tx.work.outbox →
      processedAtIff (runOutboxOps env ops s).tx.work.outbox
  | [], s, h => by simpa [runOutboxOps] using h
  | op :: ops, s, h => by
    obtain ⟨rows', added, h1, h2, h3, _⟩ := outboxOp_step env op s
    have := runOutboxOps_inv env ops (op.apply env s)
      (by rw [h1]; exact processedAtIff_step op _ _ _ h h2 h3)
    simpa [runOutboxOps] using this

/-- C13. From every transaction whose outbox rows have `processed_at`
present exactly when `processed` is true (the empty store, for one), after any
sequence of `Create` calls with messages built by `NewOutboxMessage` and of
`MarkAsProcessed` calls, whatever their outcomes: the rows still have
`processed_at` present exactly when `processed` is true, and so has the
committed outbox after a `Commit`.  In each such call every existing row stays
as it is, except that `MarkAsProcessed(id)` may turn an unprocessed row of that
id into the same row with `processed` true and `processed_at` the time of the
call: `processed` never goes from true to false and `processed_at` is written
only together with that change.  Rows are added by `Create` only, unprocessed
and without `processed_at`. -/
theorem outbox_processedAt_invariant (env : Env) (s : Session)
    (hinv : processedAtIff s.tx.work.outbox) :
    (∀ ops : List OutboxOp, processedAtIff (runOutboxOps env ops s).tx.work.outbox) ∧
    (∀ (ops : List OutboxOp),
      (Tx.Commit none (runOutboxOps env ops s).db
        (runOutboxOps env ops s).tx).2.committed.outbox
        = (runOutboxOps env ops s).tx.work.outbox) ∧
    (∀ (ops : List OutboxOp) (op : OutboxOp), ∃ rows' added : List OutboxMessage,
      (op.apply env (runOutboxOps env ops s)).tx.work.outbox = rows' ++ added ∧
      List.Forall₂ (rowStep op) (runOutboxOps env ops s).tx.work.outbox rows' ∧
      (∀ m ∈ added, m.Processed = false ∧ m.ProcessedAt = none) ∧
      (added ≠ [] → ∃ fault a b c payload, op = .create fault a b c payload)) :=
  ⟨fun ops => runOutboxOps_inv env ops s hinv, fun _ => rfl,
    fun ops op => outboxOp_step env op (runOutboxOps env ops s)⟩

/-- A message created in the empty store and marked at time 20: the one row
is processed with `processed_at` = 20. -/
theorem outbox_processedAt_invariant_witness :
    processedAtIff emptySession.tx.work.outbox ∧
    processedAtIff (runOutboxOps sampleEnv sampleOutboxOps emptySession).tx.work.outbox ∧
    (runOutboxOps sampleEnv sampleOutboxOps emptySession).tx.work.outbox.map
        (fun m => (m.Processed, m.ProcessedAt)) = [(true, some 20)] :=
  ⟨by decide,
    (outbox_processedAt_invariant sampleEnv emptySession (by decide)).1 sampleOutboxOps,
    by decide⟩

/-! ## Order state invariant -/

theorem createOrder_committed_cases (env : Env) (f : CreateOrderFaults) (now : Time) (db : DB)
    (req : CreateOrderRequest) :
    (OrderService.CreateOrder env f now db req).2.committed.orders = db.committed.orders ∨
    (req.Validate = .ok () ∧
      (∃ (ev : OrderCreatedEvent) (bytes : Bytes),
        env.jsonMarshal (.orderCreated ev) = .ok bytes ∧ ev.TotalPrice = req.TotalPrice) ∧
      (OrderService.CreateOrder env f now db req).2.committed.orders
        = db.committed.orders ++
            [{ ID := db.orderSeq + 1, CustomerID := req.CustomerID,
               ProductName := req.ProductName, Quantity := req.Quantity,
               TotalPrice := req.TotalPrice, Status := "PENDING", CreatedAt := now,
               UpdatedAt := now }]) := by
  obtain ⟨fb, fo, fx, fc⟩ := f
  unfold OrderService.CreateOrder
  cases hv : req.Validate with
  | error e => simp
  | ok u =>
    cases fb with
    | some e => simp [DB.Begin]
    | none =>
      cases fo with
      | some e => simp [DB.Begin, orderRepository.Create, Tx.Rollback]
      | none =>
        simp only [DB.Begin, orderRepository.Create, sqlInsertOrder, NewOutboxMessage]
        cases hm : env.jsonMarshal (.orderCreated
            { OrderID := db.orderSeq + 1, CustomerID := req.CustomerID,
              ProductName := req.ProductName, Quantity := req.Quantity,
              TotalPrice := req.TotalPrice, Status := OrderStatusPending,
              CreatedAt := env.formatTime now }) with
        | error e => simp [Tx.Rollback]
        | ok bytes =>
          cases fx <;> cases fc <;>
            simp [outboxRepository.Create, Tx.Commit, Tx.Rollback, sqlInsertOutbox,
              OrderStatusPending]
          exact ⟨_, ⟨_, hm⟩, rfl⟩

theorem forall₂_exists_left {α : Type} (R : α → α → Prop) (l l' : List α)
    (h : List.Forall₂ R l l') : ∀ b ∈ l', ∃ a ∈ l, R a b := by
  induction h with
  | nil => intro b hb; cases hb
  | cons hab _ ih =>
    intro b hb
    rcases List.mem_cons.mp hb with rfl | hb'
    · exact ⟨_, List.mem_cons_self _ _, hab⟩
    · obtain ⟨a', ha', hr⟩ := ih b hb'
      exact ⟨a', List.mem_cons_of_mem _ ha', hr⟩

theorem serviceOp_step (env : Env)
    (henv : ∀ (ev : OrderCreatedEvent) (bytes : Bytes),
      env.jsonMarshal (.orderCreated ev) = .ok bytes → ev.TotalPrice ≠ Float64.nan)
    (op : ServiceOp) (db : DB) (hinv : orderInv db.committed.orders) :
    ∃ rows' added : List Order,
      (op.apply env db).committed.orders = rows' ++ added ∧
      List.Forall₂ statusStep db.committed.orders rows' ∧
      (∀ o ∈ added, 0 < o.Quantity ∧ o.TotalPrice.gt Float64.zero = true ∧
        o.Status = "PENDING") := by
  have hsame : List.Forall₂ statusStep db.committed.orders db.committed.orders := by
    rw [List.forall₂_same]
    exact fun o _ => ⟨rfl, rfl, rfl, Or.inl rfl⟩
  cases op with
  | createOrder f now req =>
    rcases createOrder_committed_cases env f now db req with h | ⟨hv, ⟨ev, bytes, hm, hev⟩, h⟩
    · exact ⟨db.committed.orders, [], by simpa [ServiceOp.apply] using h, hsame, by simp⟩
    · refine ⟨db.committed.orders, _, h, hsame, ?_⟩
      intro o ho
      rw [List.mem_singleton] at ho
      subst ho
      obtain ⟨_, _, hq, hp⟩ := (validate_ok_iff req).mp hv
      refine ⟨hq, ?_, rfl⟩
      rcases (float_not_le_zero req.TotalPrice).mp hp with hgt | hnan
      · exact hgt
      · exact absurd (hev.trans hnan) (henv ev bytes hm)
  | confirmOrder f now orderID =>
    rcases (confirmOrder_cases env f now db orderID).1 with h | ⟨msg, h, _, _⟩
    · exact ⟨db.committed.orders, [], by simp [ServiceOp.apply, h], hsame, by simp⟩
    · refine ⟨(sqlUpdateOrderStatus db.committed now OrderStatusConfirmed orderID).1.orders,
        [], by simp [ServiceOp.apply, h], ?_, by simp⟩
      simp only [sqlUpdateOrderStatus]
      rw [List.forall₂_map_right_iff, List.forall₂_same]
      intro o ho
      by_cases hid : o.ID = orderID
      · rw [if_pos hid]
        refine ⟨rfl, rfl, rfl, ?_⟩
        rcases (hinv o ho).2.2 with hs | hs
        · exact Or.inr ⟨hs, rfl⟩
        · exact Or.inl hs.symm
      · rw [if_neg hid]
        exact ⟨rfl, rfl, rfl, Or.inl rfl⟩

theorem orderInv_step (rows rows' added : List Order) (hinv : orderInv rows)
    (hstep : List.Forall₂ statusStep rows rows')
    (hadd : ∀ o ∈ added, 0 < o.Quantity ∧ o.TotalPrice.gt Float64.zero = true ∧
      o.Status = "PENDING") :
    orderInv (rows' ++ added) := by
  intro o ho
  rcases List.mem_append.mp ho with h | h
  · obtain ⟨o0, ho0, h1, h2, h3, h4⟩ := forall₂_exists_left statusStep rows rows' hstep o h
    obtain ⟨k1, k2, k3⟩ := hinv o0 ho0
    refine ⟨by rw [h2]; exact k1, by rw [h3]; exact k2, ?_⟩
    rcases h4 with h4 | ⟨_, h4⟩
    · rw [h4]; exact k3
    · exact Or.inr h4
  · obtain ⟨k1, k2, k3⟩ := hadd o h
    exact ⟨k1, k2, Or.inl k3⟩

theorem runServiceOps_inv (env : Env)
    (henv : ∀ (ev : OrderCreatedEvent) (bytes : Bytes),
      env.jsonMarshal (.orderCreated ev) = .ok bytes → ev.TotalPrice ≠ Float64.nan) :
    ∀ (ops : List ServiceOp) (db : DB), orderInv db.committed.orders →
      orderInv (runServiceOps env ops db).committed.orders
  | [], db, h => by simpa [runServiceOps] using h
  | op :: ops, db, h => by
    obtain ⟨rows', added, h1, h2, h3⟩ := serviceOp_step env henv op db h
    have := runServiceOps_inv env henv ops (op.apply env db)
      (by rw [h1]; exact orderInv_step _ _ _ h h2 h3)
    simpa [runServiceOps] using this

/-- C14, through the repository: an order with quantity 0 and price 0 is
committed by `orderRepository.Create`, which does not validate; and
`orderRepository.UpdateStatus` sets a CONFIRMED order back to PENDING. -/
theorem order_invariant_repository_counterexample :
    ¬ orderInv (repositoryCreate 5 emptyDB zeroRequest).committed.orders ∧
    confirmedOrderDB.committed.orders.map (fun o => o.Status) = ["CONFIRMED"] ∧
    (repositoryUpdateStatus 10 confirmedOrderDB 1 "PENDING").committed.orders.map
        (fun o => o.Status) = ["PENDING"] := by
  decide

/-- C14, amended. When marshalling rejects a NaN price (as `encoding/json`
does), from every store whose committed orders have a positive quantity, a
positive total price and status PENDING or CONFIRMED (the empty store, for
one), after any sequence of `CreateOrder` and `ConfirmOrder` calls of the order
service, whatever their outcomes: the committed orders still have a positive
quantity, a positive total price and status PENDING or CONFIRMED; and each call
leaves identity, quantity and total price of every existing order as they are
and its status either as it is or changed from PENDING to CONFIRMED, new orders
being added with status PENDING. -/
theorem order_invariant_service (env : Env)
    (henv : ∀ (ev : OrderCreatedEvent) (bytes : Bytes),
      env.jsonMarshal (.orderCreated ev) = .ok bytes → ev.TotalPrice ≠ Float64.nan)
    (db : DB) (hinv : orderInv db.committed.orders) :
    (∀ ops : List ServiceOp, orderInv (runServiceOps env ops db).committed.orders) ∧
    (∀ (ops : List ServiceOp) (op : ServiceOp), ∃ rows' added : List Order,
      (op.apply env (runServiceOps env ops db)).committed.orders = rows' ++ added ∧
      List.Forall₂ statusStep (runServiceOps env ops db).committed.orders rows' ∧
      (∀ o ∈ added, 0 < o.Quantity ∧ o.TotalPrice.gt Float64.zero = true ∧
        o.Status = "PENDING")) :=
  ⟨fun ops => runServiceOps_inv env henv ops db hinv,
    fun ops op => serviceOp_step env henv op _ (runServiceOps_inv env henv ops db hinv)⟩

theorem sampleEnv_rejects_nan (ev : OrderCreatedEvent) (bytes : Bytes)
    (h : sampleEnv.jsonMarshal (.orderCreated ev) = .ok bytes) :
    ev.TotalPrice ≠ Float64.nan := by
  intro hnan
  simp [sampleEnv, hnan, Float64.isFinite] at h

/-- The first demo order created and confirmed from the empty store: one
order, CONFIRMED, within the invariant. -/
theorem order_invariant_service_witness :
    (∀ (ev : OrderCreatedEvent) (bytes : Bytes),
      sampleEnv.jsonMarshal (.orderCreated ev) = .ok bytes → ev.TotalPrice ≠ Float64.nan) ∧
    orderInv emptyDB.committed.orders ∧
    orderInv (runServiceOps sampleEnv sampleServiceOps emptyDB).committed.orders ∧
    (runServiceOps sampleEnv sampleServiceOps emptyDB).committed.orders.map
        (fun o => o.Status) = ["CONFIRMED"] :=
  ⟨sampleEnv_rejects_nan, by decide,
    (order_invariant_service sampleEnv sampleEnv_rejects_nan emptyDB (by decide)).1
      sampleServiceOps,
    by decide⟩

/-! ## End-to-end scenario -/

theorem confirmOrder_on_found (env : Env) (db : DB) (orderID : Int) (o : Order) (t2 : Time)
    (b2 : Bytes) (hsel : sqlSelectOrder db.committed orderID = some o)
    (hm2 : env.jsonMarshal (confirmedEvent env orderID o) = .ok b2) :
    OrderService.ConfirmOrder env ConfirmOrderFaults.none t2 db orderID
      = (.ok (),
         { committed :=
             { orders := db.committed.orders.map (fun o =>
                 if o.ID = orderID then { o with Status := "CONFIRMED", UpdatedAt := t2 }
                 else o),
               outbox := db.committed.outbox ++
                 [orderOutboxRow (db.outboxSeq + 1) orderID "OrderConfirmed" b2 t2] },
           orderSeq := db.orderSeq, outboxSeq := db.outboxSeq + 1,
           calls := db.calls ++ [Call.begin, Call.selectOrder, Call.updateOrderStatus,
             Call.insertOutbox, Call.commit] }) := by
  have hne : ¬ ∀ a ∈ db.committed.orders, ¬ a.ID = orderID := by
    intro hall
    rw [sqlSelectOrder_none _ _ hall] at hsel
    cases hsel
  simp only [confirmedEvent] at hm2
  unfold OrderService.ConfirmOrder
  simp [ConfirmOrderFaults.none, ExecFaults.none, DB.Begin, orderRepository.GetByID, hsel, hne,
    orderRepository.UpdateStatus, sqlUpdateOrderStatus, NewOutboxMessage, hm2,
    outboxRepository.Create, sqlInsertOutbox, Tx.Commit, orderOutboxRow, AggregateTypeOrder,
    EventTypeOrderConfirmed, OrderStatusConfirmed]

theorem sqlSelectOrder_of_exists (t : Tables) (id : Int)
    (h : ∃ o ∈ t.orders, o.ID = id) : ∃ o, sqlSelectOrder t id = some o := by
  obtain ⟨o, ho, hid⟩ := h
  cases hs : sqlSelectOrder t id with
  | some x => exact ⟨x, rfl⟩
  | none =>
    unfold sqlSelectOrder at hs
    rw [List.find?_eq_none] at hs
    have := hs o ho
    simp [hid] at this

/-- Closed form of one confirmation of an existing order on a working store. -/
theorem confirmOrder_existing (env : Env)
    (hmarshal : ∀ e, ∃ b, env.jsonMarshal (.orderConfirmed e) = .ok b)
    (db : DB) (orderID : Int) (hex : ∃ o ∈ db.committed.orders, o.ID = orderID) (now : Time) :
    ∃ b, OrderService.ConfirmOrder env ConfirmOrderFaults.none now db orderID
      = (.ok (),
         { committed :=
             { orders := db.committed.orders.map (fun o =>
                 if o.ID = orderID then { o with Status := "CONFIRMED", UpdatedAt := now }
                 else o),
               outbox := db.committed.outbox ++
                 [orderOutboxRow (db.outboxSeq + 1) orderID "OrderConfirmed" b now] },
           orderSeq := db.orderSeq, outboxSeq := db.outboxSeq + 1,
           calls := db.calls ++ [Call.begin, Call.selectOrder, Call.updateOrderStatus,
             Call.insertOutbox, Call.commit] }) := by
  obtain ⟨o, hsel⟩ := sqlSelectOrder_of_exists _ _ hex
  obtain ⟨b, hb⟩ := hmarshal
    { OrderID := orderID, CustomerID := o.CustomerID, ConfirmedAt := env.formatTime o.UpdatedAt }
  exact ⟨b, confirmOrder_on_found env db orderID o now b hsel hb⟩

theorem confirmOrder_existing_exists (env : Env)
    (hmarshal : ∀ e, ∃ b, env.jsonMarshal (.orderConfirmed e) = .ok b)
    (db : DB) (orderID : Int) (hex : ∃ o ∈ db.committed.orders, o.ID = orderID) (now : Time) :
    ∃ o ∈ (OrderService.ConfirmOrder env ConfirmOrderFaults.none now db orderID).2.committed.orders,
      o.ID = orderID := by
  obtain ⟨b, hb⟩ := confirmOrder_existing env hmarshal db orderID hex now
  obtain ⟨o, ho, hid⟩ := hex
  rw [hb]
  refine ⟨{ o with Status := "CONFIRMED", UpdatedAt := now }, ?_, hid⟩
  simp only [List.mem_map]
  exact ⟨o, ho, by simp [hid]⟩

theorem confirmOrder_existing_status (env : Env)
    (hmarshal : ∀ e, ∃ b, env.jsonMarshal (.orderConfirmed e) = .ok b)
    (db : DB) (orderID : Int) (hex : ∃ o ∈ db.committed.orders, o.ID = orderID) (now : Time) :
    ∀ o ∈ (OrderService.ConfirmOrder env ConfirmOrderFaults.none now db orderID).2.committed.orders,
      o.ID = orderID → o.Status = OrderStatusConfirmed := by
  obtain ⟨b, hb⟩ := confirmOrder_existing env hmarshal db orderID hex now
  rw [hb]
  intro o ho hid
  simp only [List.mem_map] at ho
  obtain ⟨x, _, hx⟩ := ho
  by_cases h : x.ID = orderID
  · simp only [h, if_true] at hx
    rw [← hx]
    rfl
  · simp only [h, if_false] at hx
    rw [hx] at h
    exact absurd hid h

theorem confirmOrder_existing_count (env : Env)
    (hmarshal : ∀ e, ∃ b, env.jsonMarshal (.orderConfirmed e) = .ok b)
    (db : DB) (orderID : Int) (hex : ∃ o ∈ db.committed.orders, o.ID = orderID) (now : Time) :
    confirmedMessages
        (OrderService.ConfirmOrder env ConfirmOrderFaults.none now db orderID).2 orderID
      = confirmedMessages db orderID + 1 := by
  obtain ⟨b, hb⟩ := confirmOrder_existing env hmarshal db orderID hex now
  rw [hb]
  simp [confirmedMessages, List.filter_append, orderOutboxRow, EventTypeOrderConfirmed,
    AggregateTypeOrder]

theorem confirmRepeatedly_spec (env : Env)
    (hmarshal : ∀ e, ∃ b, env.jsonMarshal (.orderConfirmed e) = .ok b)
    (orderID : Int) (times : List Time) :
    ∀ db : DB, (∃ o ∈ db.committed.orders, o.ID = orderID) →
      (confirmRepeatedly env orderID db times).1 = times.map (fun _ => Except.ok ()) ∧
      confirmedMessages (confirmRepeatedly env orderID db times).2 orderID
        = confirmedMessages db orderID + times.length ∧
      (∃ o ∈ (confirmRepeatedly env orderID db times).2.committed.orders, o.ID = orderID) ∧
      (times ≠ [] →
        ∀ o ∈ (confirmRepeatedly env orderID db times).2.committed.orders,
          o.ID = orderID → o.Status = OrderStatusConfirmed) := by
  induction times with
  | nil =>
    intro db hex
    exact ⟨rfl, rfl, hex, fun h => absurd rfl h⟩
  | cons t ts ih =>
    intro db hex
    have hex1 := confirmOrder_existing_exists env hmarshal db orderID hex t
    have hst1 := confirmOrder_existing_status env hmarshal db orderID hex t
    have hcnt1 := confirmOrder_existing_count env hmarshal db orderID hex t
    obtain ⟨b, hb⟩ := confirmOrder_existing env hmarshal db orderID hex t
    obtain ⟨ih1, ih2, ih3, ih4⟩ :=
      ih (OrderService.ConfirmOrder env ConfirmOrderFaults.none t db orderID).2 hex1
    refine ⟨?_, ?_, ih3, ?_⟩
    · simp only [confirmRepeatedly, List.map_cons, ih1]
      rw [hb]
    · simp only [confirmRepeatedly, ih2, hcnt1, List.length_cons]
      omega
    · intro _
      cases ts with
      | nil => simpa [confirmRepeatedly] using hst1
      | cons t2 ts2 => exact ih4 (by simp)

/-- C21. `ConfirmOrder` does not look at the current status: when an order with the given id
exists (whatever its status, `CONFIRMED` included), the store works and the confirmation event
can be marshalled, the call succeeds, every order row with that id has status `CONFIRMED`
afterwards, and the outbox grows by exactly one unprocessed `OrderConfirmed` row for that
order; hence confirming the order once per entry of `times` succeeds every time and raises
the number of `OrderConfirmed` rows of the order by the length of `times`. -/
theorem confirmOrder_ignores_status (env : Env)
    (hmarshal : ∀ e, ∃ b, env.jsonMarshal (.orderConfirmed e) = .ok b)
    (db : DB) (orderID : Int) (hex : ∃ o ∈ db.committed.orders, o.ID = orderID) :
    (∀ now : Time,
      (OrderService.ConfirmOrder env ConfirmOrderFaults.none now db orderID).1 = .ok () ∧
      (∀ o ∈ (OrderService.ConfirmOrder env ConfirmOrderFaults.none now db
          orderID).2.committed.orders, o.ID = orderID → o.Status = OrderStatusConfirmed) ∧
      (∃ msg : OutboxMessage,
        (OrderService.ConfirmOrder env ConfirmOrderFaults.none now db orderID).2.committed.outbox
          = db.committed.outbox ++ [msg] ∧
        msg.EventType = EventTypeOrderConfirmed ∧ msg.AggregateType = AggregateTypeOrder ∧
        msg.AggregateID = FormatInt orderID ∧ msg.Processed = false) ∧
      confirmedMessages
          (OrderService.ConfirmOrder env ConfirmOrderFaults.none now db orderID).2 orderID
        = confirmedMessages db orderID + 1) ∧
    (∀ times : List Time,
      (confirmRepeatedly env orderID db times).1 = times.map (fun _ => Except.ok ()) ∧
      confirmedMessages (confirmRepeatedly env orderID db times).2 orderID
        = confirmedMessages db orderID + times.length ∧
      (times ≠ [] →
        ∀ o ∈ (confirmRepeatedly env orderID db times).2.committed.orders,
          o.ID = orderID → o.Status = OrderStatusConfirmed)) := by
  refine ⟨fun now => ⟨?_, confirmOrder_existing_status env hmarshal db orderID hex now, ?_,
    confirmOrder_existing_count env hmarshal db orderID hex now⟩, fun times => ?_⟩
  · obtain ⟨b, hb⟩ := confirmOrder_existing env hmarshal db orderID hex now
    rw [hb]
  · obtain ⟨b, hb⟩ := confirmOrder_existing env hmarshal db orderID hex now
    rw [hb]
    exact ⟨_, rfl, rfl, rfl, rfl, rfl⟩
  · obtain ⟨h1, h2, _, h4⟩ := confirmRepeatedly_spec env hmarshal orderID times db hex
    exact ⟨h1, h2, h4⟩

theorem confirmOrder_ignores_status_witness :
    (∃ o ∈ confirmedOrderDB.committed.orders, o.ID = 1 ∧ o.Status = OrderStatusConfirmed) ∧
    confirmedMessages confirmedOrderDB 1 = 1 ∧
    (confirmRepeatedly sampleEnv 1 confirmedOrderDB [10, 11]).1 = [.ok (), .ok ()] ∧
    confirmedMessages (confirmRepeatedly sampleEnv 1 confirmedOrderDB [10, 11]).2 1 = 3 :=
  have hex : ∃ o ∈ confirmedOrderDB.committed.orders, o.ID = 1 := by decide
  have h := (confirmOrder_ignores_status sampleEnv
    (fun _ => ⟨[2], rfl⟩) confirmedOrderDB 1 hex).2 [10, 11]
  ⟨by decide, by decide, h.1, h.2.1⟩

end Outbox

namespace Stability

/-! ## Circuit breaker: lemmas and the state machine -/

/-- A new breaker is closed with zero failures and keeps the limits it was given. -/
theorem newCircuitBreaker_closed (maxFailures timeout : Int) :
    (NewCircuitBreaker maxFailures timeout).state = State.StateClosed ∧
    (NewCircuitBreaker maxFailures timeout).failures = 0 ∧
    (NewCircuitBreaker maxFailures timeout).maxFailures = maxFailures ∧
    (NewCircuitBreaker maxFailures timeout).timeout = timeout :=
  ⟨rfl, rfl, rfl, rfl⟩

end Stability
